import Mathlib

/-!
Draining a nodegroup: `pkg/ctl/utils/drain_nodegroup.go`.

A shallow embedding of `doDrainNodeGroup`, `evictPods` and the `Run` closure of
`drainNodeGroupCmd`.

The cluster and the AWS session are external collaborators.  They are modelled
by a record of transition functions over an arbitrary world state `σ`: every
call takes the current world and returns its result together with the next
world, so listings may change between passes, evictions may be refused, and so
on.  Every function of the embedding also returns the list of calls it made
(`Event`), in order; `logger` calls do not influence control flow and are not
recorded.

The `for` loop of `doDrainNodeGroup` has no bound in the source; `drainLoop`
takes the number of passes it may run as fuel and answers `none` when the fuel
is used up before the loop has returned.
-/

namespace DrainNodeGroup

/-- A Go `error` value, identified by its message; `Option Err` is a possibly
nil `error`. -/
abbrev Err := String

/-- The part of `metav1.ObjectMeta` used by the exemption table. -/
structure ObjectMeta where
  ns : String
  name : String
deriving DecidableEq, Repr

/-- The part of `drain.Helper` that `doDrainNodeGroup` configures (the client is
the world). -/
structure Helper where
  ignoreDaemonSets : List ObjectMeta
deriving DecidableEq, Repr

/-- A pod (workload unit), identified by namespace and name. -/
structure Pod where
  ns : String
  name : String
deriving DecidableEq, Repr

/-- A node of a listing: its name and `Spec.Unschedulable`. -/
structure Node where
  name : String
  unschedulable : Bool
deriving DecidableEq, Repr

/-- The result of `GetPodsForDeletion`, seen through `Pods()` and `Warnings()`. -/
structure PodDeleteList where
  pods : List Pod
  warnings : String
deriving DecidableEq, Repr

/-- The calls made by the code, in the order they are made. -/
inductive Event where
  | newClusterProvider
  | register
  | checkAuth
  | getCredentials
  | newStandardClientSet
  | checkEvictionSupport
  | listNodes (ngName : String) (nodes : Option (List Node))
  | updateIfRequired (node : Node) (changed : Bool)
  | patchOrReplace (node : Node) (err patchErr : Option Err)
  | getPodsForDeletion (drainer : Helper) (node : String) (pods : List Pod) (errs : List Err)
  | evictPod (pod : Pod) (gv : String) (err : Option Err)
  | insertDrained (node : String)
deriving DecidableEq, Repr

/-- The external collaborators, as transitions of a world state `σ`. -/
structure Cluster (σ : Type) where
  /-- `api.Register()` -/
  register : σ → Option Err × σ
  /-- `ctl.CheckAuth()` -/
  checkAuth : σ → Option Err × σ
  /-- `ctl.GetCredentials(cfg)` -/
  getCredentials : String → σ → Option Err × σ
  /-- `ctl.NewStandardClientSet(cfg)` -/
  newStandardClientSet : σ → Option Err × σ
  /-- `drain.CheckEvictionSupport(clientSet)` -/
  checkEvictionSupport : σ → (String × Option Err) × σ
  /-- `clientSet.CoreV1().Nodes().List(ng.ListOptions())` -/
  listNodes : String → σ → Except Err (List Node) × σ
  /-- `c.PatchOrReplace(clientSet)`, which returns two errors -/
  patchOrReplace : Node → σ → (Option Err × Option Err) × σ
  /-- `drainer.GetPodsForDeletion(node.Name)` -/
  getPodsForDeletion : Helper → String → σ → (PodDeleteList × List Err) × σ
  /-- `drainer.EvictPod(pod, evictionGroupVersion)` -/
  evictPod : Helper → Pod → String → σ → Option Err × σ

/-- The value of a call: its result, the next world, and the calls made. -/
structure Out (σ α : Type) where
  val : α
  world : σ
  events : List Event

/-- `errors.Wrapf` of `github.com/pkg/errors`: it annotates a non-nil error and
returns nil when the error is nil. -/
def wrapf (err : Option Err) (msg : String) : Option Err :=
  match err with
  | none => none
  | some e => some (msg ++ ": " ++ e)

/-- Modelled from the spec: `cmdutils.ErrNameFlagAndArg`, the usage error for a
group name given both as a flag and positionally. -/
def errNameFlagAndArg (nameFlag nameArg : String) : Err :=
  "--name=" ++ nameFlag ++ " and argument " ++ nameArg ++ " cannot be used at the same time"

/-- Modelled from the spec: `drain.CordonHelper.UpdateIfRequired`, which reports
whether the schedulability flag of the node differs from the desired one ("if the
flag is already unschedulable, this is a no-op returning changed=false"). -/
def UpdateIfRequired (node : Node) (desired : Bool) : Bool :=
  node.unschedulable != desired

/-- The exemption table `IgnoreDaemonSets` built into `doDrainNodeGroup`. -/
def ignoreDaemonSets : List ObjectMeta :=
  [ ⟨"kube-system", "aws-node"⟩,
    ⟨"kube-system", "kube-proxy"⟩,
    ⟨"", "node-exporter"⟩,
    ⟨"", "prom-node-exporter"⟩,
    ⟨"", "weave-scope"⟩,
    ⟨"", "weave-scope-agent"⟩,
    ⟨"", "weave-net"⟩ ]

/-- The `drain.Helper` built by `doDrainNodeGroup`. -/
def drainer : Helper := ⟨ignoreDaemonSets⟩

/-- `fmt.Errorf("errs: %v", errs)`. -/
def errsError (errs : List Err) : Err :=
  "errs: [" ++ " ".intercalate errs ++ "]"

variable {σ : Type}

/-- The `for _, pod := range pods` loop of `evictPods`: it stops at the first
pod whose eviction returns an error. -/
def evictEach (c : Cluster σ) (h : Helper) (gv : String) : List Pod → σ → Out σ (Option Err)
  | [], w => ⟨none, w, []⟩
  | pod :: rest, w =>
    match c.evictPod h pod gv w with
    | (some e, w1) => ⟨some e, w1, [Event.evictPod pod gv (some e)]⟩
    | (none, w1) =>
      let r := evictEach c h gv rest w1
      ⟨r.val, r.world, Event.evictPod pod gv none :: r.events⟩

/-- `evictPods`: the number of evictable pods listed, and the first error. -/
def evictPods (c : Cluster σ) (h : Helper) (node : Node) (gv : String) (w : σ) :
    Out σ (Nat × Option Err) :=
  match c.getPodsForDeletion h node.name w with
  | ((list, errs), w1) =>
    if errs.length > 0 then
      ⟨(0, some (errsError errs)), w1, [Event.getPodsForDeletion h node.name list.pods errs]⟩
    else
      let r := evictEach c h gv list.pods w1
      ⟨(list.pods.length, r.val), r.world,
        Event.getPodsForDeletion h node.name list.pods errs :: r.events⟩

/-- The first `for _, node := range nodes.Items` loop of a pass: it collects
`newPendingNodes` and cordons the nodes that are not in `drainedNodes`. -/
def cordonNodes (c : Cluster σ) (drained : List String) :
    List Node → List String → σ → Out σ (List String)
  | [], pending, w => ⟨pending, w, []⟩
  | node :: rest, pending, w =>
    if node.name ∈ drained then
      cordonNodes c drained rest pending w
    else if UpdateIfRequired node true then
      match c.patchOrReplace node w with
      | ((err, patchErr), w1) =>
        let r := cordonNodes c drained rest (pending.insert node.name) w1
        ⟨r.val, r.world,
          Event.updateIfRequired node true :: Event.patchOrReplace node err patchErr :: r.events⟩
    else
      let r := cordonNodes c drained rest (pending.insert node.name) w
      ⟨r.val, r.world, Event.updateIfRequired node false :: r.events⟩

/-- The body of the second `for _, node := range nodes.Items` loop of a pass,
for one node: the value is the error returned, if any, and the new
`drainedNodes`. -/
def evictNode (c : Cluster σ) (h : Helper) (gv : String) (node : Node) (drained : List String)
    (w : σ) : Out σ (Option Err × List String) :=
  let r := evictPods c h node gv w
  match r.val with
  | (_, some e) => ⟨(some e, drained), r.world, r.events⟩
  | (pending, none) =>
    if pending = 0 then
      ⟨(none, drained.insert node.name), r.world, r.events ++ [Event.insertDrained node.name]⟩
    else
      ⟨(none, drained), r.world, r.events⟩

/-- The second `for _, node := range nodes.Items` loop of a pass: it returns at
the first node whose `evictPods` returns an error. -/
def evictNodes (c : Cluster σ) (h : Helper) (gv : String) :
    List Node → List String → σ → Out σ (Option Err × List String)
  | [], drained, w => ⟨(none, drained), w, []⟩
  | node :: rest, drained, w =>
    let r := evictNode c h gv node drained w
    match r.val with
    | (some e, d) => ⟨(some e, d), r.world, r.events⟩
    | (none, d) =>
      let r2 := evictNodes c h gv rest d r.world
      ⟨r2.val, r2.world, r.events ++ r2.events⟩

/-- How one pass of the loop ends. -/
inductive PassEnd where
  | done
  | failed (e : Err)
  | again
deriving DecidableEq, Repr

/-- `drainedNodes.HasAll(newPendingNodes.List()...)`. -/
def hasAll (drained pending : List String) : Bool :=
  pending.all (fun x => decide (x ∈ drained))

/-- One pass of the `for` loop of `doDrainNodeGroup`: the value is how the pass
ends and the new `drainedNodes`. -/
def pass (c : Cluster σ) (h : Helper) (ngName gv : String) (drained : List String) (w : σ) :
    Out σ (PassEnd × List String) :=
  match c.listNodes ngName w with
  | (Except.error e, w1) => ⟨(PassEnd.failed e, drained), w1, [Event.listNodes ngName none]⟩
  | (Except.ok nodes, w1) =>
    let r := cordonNodes c drained nodes [] w1
    if hasAll drained r.val then
      ⟨(PassEnd.done, drained), r.world, Event.listNodes ngName (some nodes) :: r.events⟩
    else
      let r2 := evictNodes c h gv nodes drained r.world
      match r2.val with
      | (some e, d) => ⟨(PassEnd.failed e, d), r2.world, Event.listNodes ngName (some nodes) :: (r.events ++ r2.events)⟩
      | (none, d) => ⟨(PassEnd.again, d), r2.world, Event.listNodes ngName (some nodes) :: (r.events ++ r2.events)⟩

/-- What a run returns: the `error`, and with it the final `drainedNodes`, the
final world and the calls made. -/
structure RunResult (σ : Type) where
  err : Option Err
  drained : List String
  world : σ
  events : List Event

/-- The `for` loop of `doDrainNodeGroup`, run for at most `fuel` passes. -/
def drainLoop (c : Cluster σ) (h : Helper) (ngName gv : String) :
    Nat → List String → σ → Option (RunResult σ)
  | 0, _, _ => none
  | fuel + 1, drained, w =>
    let p := pass c h ngName gv drained w
    match p.val with
    | (PassEnd.done, d) => some ⟨none, d, p.world, p.events⟩
    | (PassEnd.failed e, d) => some ⟨some e, d, p.world, p.events⟩
    | (PassEnd.again, d) =>
      match drainLoop c h ngName gv fuel d p.world with
      | none => none
      | some r => some ⟨r.err, r.drained, r.world, p.events ++ r.events⟩

/-- Lines 55-93 of `doDrainNodeGroup`: either the function has returned, or the
loop is ready to start with the group name and the eviction group version. -/
inductive Preflight (σ : Type) where
  | returned (err : Option Err) (world : σ) (events : List Event)
  | ready (ngName gv : String) (world : σ) (events : List Event)

/-- Lines 55-93 of `doDrainNodeGroup`. `clusterName` is `cfg.Metadata.Name`,
`ngName` is the value of the `--name` flag and `nameArg` the positional name. -/
def preflight (c : Cluster σ) (clusterName ngName nameArg : String) (w : σ) : Preflight σ :=
  match c.register w with
  | (some e, w1) => .returned (some e) w1 [.newClusterProvider, .register]
  | (none, w1) =>
  match c.checkAuth w1 with
  | (some e, w2) => .returned (some e) w2 [.newClusterProvider, .register, .checkAuth]
  | (none, w2) =>
  if clusterName = "" then
    .returned (some "--cluster must be set") w2 [.newClusterProvider, .register, .checkAuth]
  else if ngName ≠ "" ∧ nameArg ≠ "" then
    .returned (some (errNameFlagAndArg ngName nameArg)) w2
      [.newClusterProvider, .register, .checkAuth]
  else if (if nameArg ≠ "" then nameArg else ngName) = "" then
    .returned (some "--name must be set") w2 [.newClusterProvider, .register, .checkAuth]
  else
  match c.getCredentials clusterName w2 with
  | (some e, w3) =>
    .returned (wrapf (some e) ("getting credentials for cluster \"" ++ clusterName ++ "\"")) w3
      [.newClusterProvider, .register, .checkAuth, .getCredentials]
  | (none, w3) =>
  match c.newStandardClientSet w3 with
  | (some e, w4) =>
    .returned (some e) w4
      [.newClusterProvider, .register, .checkAuth, .getCredentials, .newStandardClientSet]
  | (none, w4) =>
  match c.checkEvictionSupport w4 with
  | ((gv, err), w5) =>
    if gv = "" ∨ err ≠ none then
      .returned (wrapf err "pod evictions are not supported") w5
        [.newClusterProvider, .register, .checkAuth, .getCredentials, .newStandardClientSet,
          .checkEvictionSupport]
    else
      .ready (if nameArg ≠ "" then nameArg else ngName) gv w5
        [.newClusterProvider, .register, .checkAuth, .getCredentials, .newStandardClientSet,
          .checkEvictionSupport]

/-- `doDrainNodeGroup`, with the loop run for at most `fuel` passes. -/
def doDrainNodeGroup (c : Cluster σ) (fuel : Nat) (clusterName ngName nameArg : String) (w : σ) :
    Option (RunResult σ) :=
  match preflight c clusterName ngName nameArg w with
  | .returned err w1 ev => some ⟨err, [], w1, ev⟩
  | .ready name gv w1 ev =>
    match drainLoop c drainer name gv fuel [] w1 with
    | none => none
    | some r => some ⟨r.err, r.drained, r.world, ev ++ r.events⟩

/-- The `Run` closure of `drainNodeGroupCmd`: what is printed by
`logger.Critical`, and the exit status of the process. -/
def drainNodeGroupCmdRun (err : Option Err) : Option String × Nat :=
  match err with
  | some e => (some (e ++ "\n"), 1)
  | none => (none, 0)

/-- How a pass that reached the eviction loop ends: `return err` when the loop
returned an error, and another pass otherwise. -/
def sweepEnd : Option Err → PassEnd
  | some e => PassEnd.failed e
  | none => PassEnd.again

/-- The cluster `c` with the two errors returned by `PatchOrReplace` replaced by
those that `f` chooses; what the call does to the world is unchanged. -/
def Cluster.withPatchErrors (c : Cluster σ) (f : Node → σ → Option Err × Option Err) :
    Cluster σ :=
  { c with patchOrReplace := fun n w => (f n w, (c.patchOrReplace n w).2) }

/-- The number of passes of the loop in a list of calls: every pass starts with
one listing of the nodes. -/
def passes (events : List Event) : Nat :=
  events.countP (fun ev => match ev with
    | Event.listNodes _ _ => true
    | _ => false)

/-- Whether `evictPods` was called for the node `name`: every call starts with
`GetPodsForDeletion(name)`. -/
def swept (name : String) (events : List Event) : Bool :=
  events.any (fun ev => match ev with
    | Event.getPodsForDeletion _ n _ _ => decide (n = name)
    | _ => false)

/-- Whether `UpdateIfRequired(true)` was called for a node called `name`. -/
def cordonAttempted (name : String) (events : List Event) : Bool :=
  events.any (fun ev => match ev with
    | Event.updateIfRequired n _ => decide (n.name = name)
    | _ => false)

/-- The calls made by lines 55-93 of `doDrainNodeGroup`. -/
def Preflight.events : Preflight σ → List Event
  | Preflight.returned _ _ ev => ev
  | Preflight.ready _ _ _ ev => ev

/-! ## A scripted cluster, for evaluating the code on concrete inputs -/

/-- The pods placed on the node `name`, in a list of pods with their nodes. -/
def placed (w : List (String × Pod)) (name : String) : List Pod :=
  (w.filter (fun x => decide (x.1 = name))).map (fun x => x.2)

/-- The state of a scripted cluster. -/
structure Sim where
  /-- the listings still to be returned, in order; the last one is repeated -/
  listings : List (List Node)
  /-- the evictable pods, each with the name of its node -/
  pods : List (String × Pod)
  /-- the pods whose eviction is refused -/
  denied : List Pod
  /-- the names of the nodes whose cordon patch fails -/
  patchFails : List String
  /-- the names of the nodes whose pods cannot be listed -/
  podListFails : List String
  /-- the answer of `ctl.CheckAuth()` -/
  authErr : Option Err
  /-- the answer of `drain.CheckEvictionSupport` -/
  evictionSupport : String × Option Err
deriving DecidableEq, Repr

/-- The pods of a scripted cluster that are on the node `name`. -/
def Sim.podsOn (w : Sim) (name : String) : List Pod :=
  placed w.pods name

/-- The scripted cluster: an eviction that is not refused removes the pod, and
a refused eviction leaves it in place. -/
def simCluster : Cluster Sim where
  register := fun w => (none, w)
  checkAuth := fun w => (w.authErr, w)
  getCredentials := fun _ w => (none, w)
  newStandardClientSet := fun w => (none, w)
  checkEvictionSupport := fun w => (w.evictionSupport, w)
  listNodes := fun _ w =>
    match w.listings with
    | [] => (Except.ok [], w)
    | [l] => (Except.ok l, w)
    | l :: rest => (Except.ok l, { w with listings := rest })
  patchOrReplace := fun node w =>
    if node.name ∈ w.patchFails then ((some "replace failed", some "patch failed"), w)
    else ((none, none), w)
  getPodsForDeletion := fun _ name w =>
    if name ∈ w.podListFails then ((⟨[], ""⟩, ["cannot list pods"]), w)
    else ((⟨w.podsOn name, ""⟩, []), w)
  evictPod := fun _ pod _ w =>
    if pod ∈ w.denied then (some "eviction denied", w)
    else (none, { w with pods := w.pods.filter (fun x => decide (x.2 ≠ pod)) })

/-- A scripted cluster in which every call succeeds and eviction is supported. -/
def Sim.healthy (listings : List (List Node)) (pods : List (String × Pod)) : Sim :=
  ⟨listings, pods, [], [], [], none, ("policy/v1beta1", none)⟩

/-! ## Concrete scenarios -/

/-- The eviction group version answered by a healthy scripted cluster. -/
def policyGV : String := "policy/v1beta1"

/-- Node `n` with three evictable pods, the third of which may not be evicted. -/
def partlyDenied : Sim :=
  { Sim.healthy [[⟨"n", false⟩]]
      [("n", ⟨"default", "a"⟩), ("n", ⟨"default", "b"⟩), ("n", ⟨"default", "c"⟩)] with
    denied := [⟨"default", "c"⟩] }

/-- One node with one evictable pod, in a cluster where every call succeeds. -/
def oneNodeOnePod : Sim :=
  Sim.healthy [[⟨"n1", false⟩]] [("n1", ⟨"default", "web"⟩)]

/-- One node with one pod whose eviction is refused. -/
def oneNodeDenied : Sim :=
  { oneNodeOnePod with denied := [⟨"default", "web"⟩] }

/-- A cluster whose capability check answers an empty group version and no
error: eviction is not supported. -/
def noEvictionSupport : Sim :=
  { oneNodeOnePod with evictionSupport := ("", none) }

/-- One node that is already unschedulable, with one evictable pod. -/
def alreadyCordoned : Sim :=
  Sim.healthy [[⟨"n1", true⟩]] [("n1", ⟨"default", "web"⟩)]

/-- Node `a` is listed first; nodes `c` and `b` have joined when the nodes are
listed again; the pod on `c` may not be evicted. -/
def lateJoiner : Sim :=
  { Sim.healthy [[⟨"a", false⟩], [⟨"a", false⟩, ⟨"c", false⟩, ⟨"b", false⟩]]
      [("a", ⟨"default", "p1"⟩), ("c", ⟨"default", "p2"⟩)] with
    denied := [⟨"default", "p2"⟩] }

/-- Node `b` has joined node `a`, and has one evictable pod. -/
def joined : Sim :=
  Sim.healthy [[⟨"a", false⟩, ⟨"b", false⟩]] [("b", ⟨"default", "p2"⟩)]

/-- Nodes `a` and `b`, each with one pod; the cordon patch of `b` fails. -/
def cordonFails : Sim :=
  { Sim.healthy [[⟨"a", false⟩, ⟨"b", false⟩]]
      [("a", ⟨"default", "p1"⟩), ("b", ⟨"default", "p2"⟩)] with
    patchFails := ["b"] }

/-- Nodes `a` and `b`; the cordon patch of `b` fails and the pod on `a` may not
be evicted. -/
def cordonFailsAndDenied : Sim :=
  { cordonFails with denied := [⟨"default", "p1"⟩] }

/-! ## The assumptions of the convergence claim -/

/-- No pod appears between the worlds `w` and `w1`: every pod that a listing
returns in `w1` was returned for the same node in `w`. -/
def Shrinks (podsOn : σ → String → List Pod) (w w1 : σ) : Prop :=
  ∀ x q, q ∈ podsOn w1 x → q ∈ podsOn w x

/-- The assumptions of the convergence claim on a cluster, where `podsOn w x` is
the list of evictable pods of node `x` in the world `w`: the membership is fixed
(every listing succeeds and returns nodes with the names `names`), the listing
of pods never fails and returns `podsOn`, every eviction succeeds, an evicted
pod is absent from every later listing, and no pod appears. -/
structure Converging (c : Cluster σ) (names : List String) (podsOn : σ → String → List Pod) :
    Prop where
  listNodes : ∀ ng w, ∃ nodes, (c.listNodes ng w).1 = Except.ok nodes ∧
    nodes.map (fun n => n.name) = names ∧ Shrinks podsOn w (c.listNodes ng w).2
  patchOrReplace : ∀ n w, Shrinks podsOn w (c.patchOrReplace n w).2
  getPodsForDeletion : ∀ h x w, (c.getPodsForDeletion h x w).1.1.pods = podsOn w x ∧
    (c.getPodsForDeletion h x w).1.2 = [] ∧ Shrinks podsOn w (c.getPodsForDeletion h x w).2
  evictPod : ∀ h p gv w, (c.evictPod h p gv w).1 = none ∧
    ∀ x q, q ∈ podsOn (c.evictPod h p gv w).2 x → q ∈ podsOn w x ∧ q ≠ p

/-- A cluster with the fixed membership `nodes` in which every call succeeds.
The world is the list of the evictable pods with their nodes; an eviction
removes the pod and nothing else changes the pods. -/
def idealCluster (nodes : List Node) : Cluster (List (String × Pod)) where
  register := fun w => (none, w)
  checkAuth := fun w => (none, w)
  getCredentials := fun _ w => (none, w)
  newStandardClientSet := fun w => (none, w)
  checkEvictionSupport := fun w => ((policyGV, none), w)
  listNodes := fun _ w => (Except.ok nodes, w)
  patchOrReplace := fun _ w => ((none, none), w)
  getPodsForDeletion := fun _ name w => ((⟨placed w name, ""⟩, []), w)
  evictPod := fun _ pod _ w => (none, w.filter (fun x => decide (x.2 ≠ pod)))

/-! ## The calls made by `evictPods` -/

section Lemmas

variable {σ : Type}

theorem evictEach_mem_events (c : Cluster σ) (h : Helper) (gv : String) (pods : List Pod) (w : σ)
    (ev : Event) (hev : ev ∈ (evictEach c h gv pods w).events) :
    ∃ pod err, ev = Event.evictPod pod gv err ∧ pod ∈ pods := by
  induction pods generalizing w with
  | nil => simp [evictEach] at hev
  | cons p ps ih =>
    unfold evictEach at hev
    split at hev
    · simp only [List.mem_singleton] at hev
      exact ⟨p, _, hev, List.mem_cons_self _ _⟩
    · simp only [List.mem_cons] at hev
      rcases hev with hev | hev
      · exact ⟨p, none, hev, List.mem_cons_self _ _⟩
      · obtain ⟨q, err, h1, h2⟩ := ih _ hev
        exact ⟨q, err, h1, List.mem_cons_of_mem _ h2⟩

theorem evictEach_error_event (c : Cluster σ) (h : Helper) (gv : String) (pods : List Pod) (w : σ)
    (pod : Pod) (gv1 : String) (e : Err)
    (hev : Event.evictPod pod gv1 (some e) ∈ (evictEach c h gv pods w).events) :
    (evictEach c h gv pods w).val = some e := by
  induction pods generalizing w with
  | nil => simp [evictEach] at hev
  | cons p ps ih =>
    unfold evictEach at hev ⊢
    split
    · rename_i e1 w1 heq
      simp only [heq, List.mem_singleton, Event.evictPod.injEq, Option.some.injEq] at hev
      simp [hev.2.2]
    · rename_i w1 heq
      simp only [heq, List.mem_cons, Event.evictPod.injEq] at hev
      rcases hev with hev | hev
      · simp at hev
      · exact ih _ hev

theorem evictEach_val_event (c : Cluster σ) (h : Helper) (gv : String) (pods : List Pod) (w : σ)
    (e : Err) (hv : (evictEach c h gv pods w).val = some e) :
    ∃ pod, pod ∈ pods ∧ Event.evictPod pod gv (some e) ∈ (evictEach c h gv pods w).events := by
  induction pods generalizing w with
  | nil => simp [evictEach] at hv
  | cons p ps ih =>
    unfold evictEach at hv ⊢
    split
    · rename_i e1 w1 heq
      simp only [heq, Option.some.injEq] at hv
      exact ⟨p, List.mem_cons_self _ _, by simp [hv]⟩
    · rename_i w1 heq
      simp only [heq] at hv
      obtain ⟨q, h1, h2⟩ := ih _ hv
      exact ⟨q, List.mem_cons_of_mem _ h1, List.mem_cons_of_mem _ h2⟩

/-- The value of `evictPods` in terms of the listing: `(0, error)` when the
listing reports errors, and otherwise the number of pods listed with the first
eviction error. -/
theorem evictPods_val (c : Cluster σ) (h : Helper) (node : Node) (gv : String) (w : σ) :
    (evictPods c h node gv w).val =
      if (c.getPodsForDeletion h node.name w).1.2 = [] then
        ((c.getPodsForDeletion h node.name w).1.1.pods.length,
          (evictEach c h gv (c.getPodsForDeletion h node.name w).1.1.pods
            (c.getPodsForDeletion h node.name w).2).val)
      else (0, some (errsError (c.getPodsForDeletion h node.name w).1.2)) := by
  unfold evictPods
  rcases hg : c.getPodsForDeletion h node.name w with ⟨⟨list, errs⟩, w1⟩
  cases errs with
  | nil => simp
  | cons a l => simp

theorem evictPods_events (c : Cluster σ) (h : Helper) (node : Node) (gv : String) (w : σ) :
    (evictPods c h node gv w).events =
      Event.getPodsForDeletion h node.name (c.getPodsForDeletion h node.name w).1.1.pods
          (c.getPodsForDeletion h node.name w).1.2 ::
        (if (c.getPodsForDeletion h node.name w).1.2 = [] then
          (evictEach c h gv (c.getPodsForDeletion h node.name w).1.1.pods
            (c.getPodsForDeletion h node.name w).2).events
        else []) := by
  unfold evictPods
  rcases hg : c.getPodsForDeletion h node.name w with ⟨⟨list, errs⟩, w1⟩
  cases errs with
  | nil => simp
  | cons a l => simp

theorem evictPods_val_zero (c : Cluster σ) (h : Helper) (node : Node) (gv : String) (w : σ) :
    (evictPods c h node gv w).val = (0, none) ↔
      (c.getPodsForDeletion h node.name w).1.2 = [] ∧
        (c.getPodsForDeletion h node.name w).1.1.pods = [] := by
  rw [evictPods_val]
  constructor
  · intro hv
    split at hv
    · rename_i he
      refine ⟨he, ?_⟩
      simp only [Prod.mk.injEq] at hv
      exact List.length_eq_zero.mp hv.1
    · simp at hv
  · rintro ⟨he, hp⟩
    simp [he, hp, evictEach]

theorem evictPods_mem_events (c : Cluster σ) (h : Helper) (node : Node) (gv : String) (w : σ)
    (ev : Event) (hev : ev ∈ (evictPods c h node gv w).events) :
    ev = Event.getPodsForDeletion h node.name (c.getPodsForDeletion h node.name w).1.1.pods
          (c.getPodsForDeletion h node.name w).1.2 ∨
      ((c.getPodsForDeletion h node.name w).1.2 = [] ∧
        ∃ pod err, ev = Event.evictPod pod gv err ∧
          pod ∈ (c.getPodsForDeletion h node.name w).1.1.pods) := by
  rw [evictPods_events] at hev
  simp only [List.mem_cons] at hev
  rcases hev with hev | hev
  · exact Or.inl hev
  · right
    split at hev
    · rename_i he
      exact ⟨he, evictEach_mem_events c h gv _ _ ev hev⟩
    · simp at hev

theorem evictPods_listing_event (c : Cluster σ) (h : Helper) (node : Node) (gv : String) (w : σ) :
    Event.getPodsForDeletion h node.name (c.getPodsForDeletion h node.name w).1.1.pods
        (c.getPodsForDeletion h node.name w).1.2 ∈ (evictPods c h node gv w).events := by
  rw [evictPods_events]
  exact List.mem_cons_self _ _

theorem evictPods_no_insert (c : Cluster σ) (h : Helper) (node : Node) (gv : String) (w : σ)
    (x : String) : Event.insertDrained x ∉ (evictPods c h node gv w).events := by
  intro hev
  rcases evictPods_mem_events c h node gv w _ hev with h1 | ⟨_, pod, err, h1, _⟩ <;> simp at h1

theorem evictPods_error_event (c : Cluster σ) (h : Helper) (node : Node) (gv : String) (w : σ)
    (pod : Pod) (gv1 : String) (e : Err)
    (hev : Event.evictPod pod gv1 (some e) ∈ (evictPods c h node gv w).events) :
    (evictPods c h node gv w).val.2 = some e := by
  rw [evictPods_events] at hev
  simp only [List.mem_cons] at hev
  rcases hev with hev | hev
  · simp at hev
  · split at hev
    · rename_i he
      rw [evictPods_val, if_pos he]
      exact evictEach_error_event c h gv _ _ pod gv1 e hev
    · simp at hev

/-- Where an error returned by `evictPods` comes from: a refused eviction, or a
listing that reports errors. -/
theorem evictPods_val_error (c : Cluster σ) (h : Helper) (node : Node) (gv : String) (w : σ)
    (e : Err) (hv : (evictPods c h node gv w).val.2 = some e) :
    (∃ pod, Event.evictPod pod gv (some e) ∈ (evictPods c h node gv w).events) ∨
      (∃ pods errs, errs ≠ [] ∧ e = errsError errs ∧
        Event.getPodsForDeletion h node.name pods errs ∈ (evictPods c h node gv w).events) := by
  rw [evictPods_val] at hv
  split at hv
  · rename_i he
    left
    obtain ⟨pod, _, h2⟩ := evictEach_val_event c h gv _ _ e hv
    refine ⟨pod, ?_⟩
    rw [evictPods_events, if_pos he]
    exact List.mem_cons_of_mem _ h2
  · rename_i he
    right
    simp only [Option.some.injEq] at hv
    exact ⟨_, _, he, hv.symm, evictPods_listing_event c h node gv w⟩

/-! ## The body of the eviction loop -/

theorem evictNode_of_error (c : Cluster σ) (h : Helper) (gv : String) (node : Node)
    (drained : List String) (w : σ) (e : Err) (hv : (evictPods c h node gv w).val.2 = some e) :
    evictNode c h gv node drained w =
      ⟨(some e, drained), (evictPods c h node gv w).world, (evictPods c h node gv w).events⟩ := by
  unfold evictNode
  rcases hr : (evictPods c h node gv w).val with ⟨n, err⟩
  rw [hr] at hv
  simp only at hv
  subst hv
  simp [hr]

theorem evictNode_of_zero (c : Cluster σ) (h : Helper) (gv : String) (node : Node)
    (drained : List String) (w : σ) (hv : (evictPods c h node gv w).val = (0, none)) :
    evictNode c h gv node drained w =
      ⟨(none, drained.insert node.name), (evictPods c h node gv w).world,
        (evictPods c h node gv w).events ++ [Event.insertDrained node.name]⟩ := by
  unfold evictNode
  simp [hv]

theorem evictNode_of_pos (c : Cluster σ) (h : Helper) (gv : String) (node : Node)
    (drained : List String) (w : σ) (hn : (evictPods c h node gv w).val.1 ≠ 0)
    (hv : (evictPods c h node gv w).val.2 = none) :
    evictNode c h gv node drained w =
      ⟨(none, drained), (evictPods c h node gv w).world, (evictPods c h node gv w).events⟩ := by
  unfold evictNode
  rcases hr : (evictPods c h node gv w).val with ⟨n, err⟩
  rw [hr] at hv hn
  simp only at hv hn
  subst hv
  simp [hr, hn]

/-- The three ways the body of the eviction loop can go. -/
theorem evictNode_cases (c : Cluster σ) (h : Helper) (gv : String) (node : Node)
    (drained : List String) (w : σ) :
    (∃ e, (evictPods c h node gv w).val.2 = some e ∧
      evictNode c h gv node drained w =
        ⟨(some e, drained), (evictPods c h node gv w).world, (evictPods c h node gv w).events⟩) ∨
    ((evictPods c h node gv w).val = (0, none) ∧
      evictNode c h gv node drained w =
        ⟨(none, drained.insert node.name), (evictPods c h node gv w).world,
          (evictPods c h node gv w).events ++ [Event.insertDrained node.name]⟩) ∨
    ((evictPods c h node gv w).val.1 ≠ 0 ∧ (evictPods c h node gv w).val.2 = none ∧
      evictNode c h gv node drained w =
        ⟨(none, drained), (evictPods c h node gv w).world, (evictPods c h node gv w).events⟩) := by
  rcases hr : (evictPods c h node gv w).val with ⟨n, err⟩
  cases err with
  | some e => exact Or.inl ⟨e, rfl, evictNode_of_error c h gv node drained w e (by rw [hr])⟩
  | none =>
    by_cases hn : n = 0
    · subst hn
      exact Or.inr (Or.inl ⟨rfl, evictNode_of_zero c h gv node drained w hr⟩)
    · exact Or.inr (Or.inr ⟨hn, rfl, evictNode_of_pos c h gv node drained w (by rw [hr]; exact hn)
        (by rw [hr])⟩)

theorem evictNode_val_fst (c : Cluster σ) (h : Helper) (gv : String) (node : Node)
    (drained : List String) (w : σ) :
    (evictNode c h gv node drained w).val.1 = (evictPods c h node gv w).val.2 := by
  rcases evictNode_cases c h gv node drained w with ⟨e, h1, h2⟩ | ⟨h1, h2⟩ | ⟨_, h1, h2⟩
  · rw [h2, h1]
  · rw [h2, h1]
  · rw [h2, h1]

theorem evictNode_world (c : Cluster σ) (h : Helper) (gv : String) (node : Node)
    (drained : List String) (w : σ) :
    (evictNode c h gv node drained w).world = (evictPods c h node gv w).world := by
  rcases evictNode_cases c h gv node drained w with ⟨e, _, h2⟩ | ⟨_, h2⟩ | ⟨_, _, h2⟩ <;> rw [h2]

theorem evictNode_val_snd (c : Cluster σ) (h : Helper) (gv : String) (node : Node)
    (drained : List String) (w : σ) :
    (evictNode c h gv node drained w).val.2 =
      if (evictPods c h node gv w).val = (0, none) then drained.insert node.name else drained := by
  rcases evictNode_cases c h gv node drained w with ⟨e, h1, h2⟩ | ⟨h1, h2⟩ | ⟨h0, h1, h2⟩
  · rw [h2, if_neg]
    intro hc
    rw [hc] at h1
    simp at h1
  · rw [h2, if_pos h1]
  · rw [h2, if_neg]
    intro hc
    rw [hc] at h0
    simp at h0

theorem evictNode_events (c : Cluster σ) (h : Helper) (gv : String) (node : Node)
    (drained : List String) (w : σ) :
    (evictNode c h gv node drained w).events =
      (evictPods c h node gv w).events ++
        if (evictPods c h node gv w).val = (0, none) then [Event.insertDrained node.name]
        else [] := by
  rcases evictNode_cases c h gv node drained w with ⟨e, h1, h2⟩ | ⟨h1, h2⟩ | ⟨h0, h1, h2⟩
  · rw [h2, if_neg, List.append_nil]
    intro hc
    rw [hc] at h1
    simp at h1
  · rw [h2, if_pos h1]
  · rw [h2, if_neg, List.append_nil]
    intro hc
    rw [hc] at h0
    simp at h0

theorem evictNode_subset (c : Cluster σ) (h : Helper) (gv : String) (node : Node)
    (drained : List String) (w : σ) (x : String) (hx : x ∈ drained) :
    x ∈ (evictNode c h gv node drained w).val.2 := by
  rw [evictNode_val_snd]
  split
  · exact List.mem_insert_of_mem hx
  · exact hx

theorem evictNode_justified (c : Cluster σ) (h : Helper) (gv : String) (node : Node)
    (drained : List String) (w : σ) (x : String)
    (hx : x ∈ (evictNode c h gv node drained w).val.2) :
    x ∈ drained ∨ Event.getPodsForDeletion h x [] [] ∈ (evictNode c h gv node drained w).events := by
  rw [evictNode_val_snd] at hx
  split at hx
  · rename_i hz
    rcases List.mem_insert_iff.mp hx with hx | hx
    · right
      rw [evictNode_events]
      apply List.mem_append_left
      have hl := evictPods_listing_event c h node gv w
      rw [((evictPods_val_zero c h node gv w).mp hz).1, ((evictPods_val_zero c h node gv w).mp hz).2]
        at hl
      rw [hx]
      exact hl
    · exact Or.inl hx
  · exact Or.inl hx

/-! ## The eviction loop over the nodes of a listing -/

theorem evictNodes_cons_error (c : Cluster σ) (h : Helper) (gv : String) (node : Node)
    (rest : List Node) (drained : List String) (w : σ) (e : Err)
    (hv : (evictPods c h node gv w).val.2 = some e) :
    evictNodes c h gv (node :: rest) drained w =
      ⟨(some e, drained), (evictPods c h node gv w).world, (evictPods c h node gv w).events⟩ := by
  unfold evictNodes
  simp [evictNode_of_error c h gv node drained w e hv]

theorem evictNodes_cons_ok (c : Cluster σ) (h : Helper) (gv : String) (node : Node)
    (rest : List Node) (drained : List String) (w : σ)
    (hv : (evictPods c h node gv w).val.2 = none) :
    evictNodes c h gv (node :: rest) drained w =
      ⟨(evictNodes c h gv rest (evictNode c h gv node drained w).val.2
          (evictPods c h node gv w).world).val,
        (evictNodes c h gv rest (evictNode c h gv node drained w).val.2
          (evictPods c h node gv w).world).world,
        (evictNode c h gv node drained w).events ++
          (evictNodes c h gv rest (evictNode c h gv node drained w).val.2
            (evictPods c h node gv w).world).events⟩ := by
  have h1 : (evictNode c h gv node drained w).val.1 = none := by rw [evictNode_val_fst, hv]
  have h2 := evictNode_world c h gv node drained w
  conv_lhs => unfold evictNodes
  rcases hr : (evictNode c h gv node drained w).val with ⟨err, d⟩
  rw [hr] at h1
  simp only at h1
  subst h1
  simp [hr, h2]

theorem evictNode_mem_events (c : Cluster σ) (h : Helper) (gv : String) (node : Node)
    (drained : List String) (w : σ) (ev : Event)
    (hev : ev ∈ (evictNode c h gv node drained w).events) :
    ev ∈ (evictPods c h node gv w).events ∨
      (ev = Event.insertDrained node.name ∧ (evictPods c h node gv w).val = (0, none)) := by
  rw [evictNode_events] at hev
  rcases List.mem_append.mp hev with hev | hev
  · exact Or.inl hev
  · split at hev
    · rename_i hz
      exact Or.inr ⟨List.mem_singleton.mp hev, hz⟩
    · simp at hev

theorem evictNode_events_of_evictPods (c : Cluster σ) (h : Helper) (gv : String) (node : Node)
    (drained : List String) (w : σ) (ev : Event) (hev : ev ∈ (evictPods c h node gv w).events) :
    ev ∈ (evictNode c h gv node drained w).events := by
  rw [evictNode_events]
  exact List.mem_append_left _ hev

theorem evictPods_evict_listed (c : Cluster σ) (h : Helper) (node : Node) (gv : String) (w : σ)
    (pod : Pod) (gv1 : String) (err : Option Err)
    (hev : Event.evictPod pod gv1 err ∈ (evictPods c h node gv w).events) :
    pod ∈ (c.getPodsForDeletion h node.name w).1.1.pods ∧
      Event.getPodsForDeletion h node.name (c.getPodsForDeletion h node.name w).1.1.pods [] ∈
        (evictPods c h node gv w).events := by
  rcases evictPods_mem_events c h node gv w _ hev with h1 | ⟨he, q, err1, h1, h2⟩
  · simp at h1
  · simp only [Event.evictPod.injEq] at h1
    refine ⟨h1.1 ▸ h2, ?_⟩
    have hl := evictPods_listing_event c h node gv w
    rw [he] at hl
    exact hl

theorem evictNodes_subset (c : Cluster σ) (h : Helper) (gv : String) (nodes : List Node)
    (drained : List String) (w : σ) (x : String) (hx : x ∈ drained) :
    x ∈ (evictNodes c h gv nodes drained w).val.2 := by
  induction nodes generalizing drained w with
  | nil => simpa [evictNodes] using hx
  | cons n rest ih =>
    cases hv : (evictPods c h n gv w).val.2 with
    | some e =>
      rw [evictNodes_cons_error c h gv n rest drained w e hv]
      exact hx
    | none =>
      rw [evictNodes_cons_ok c h gv n rest drained w hv]
      exact ih _ _ (evictNode_subset c h gv n drained w x hx)

theorem evictNodes_justified (c : Cluster σ) (h : Helper) (gv : String) (nodes : List Node)
    (drained : List String) (w : σ) (x : String)
    (hx : x ∈ (evictNodes c h gv nodes drained w).val.2) :
    x ∈ drained ∨
      Event.getPodsForDeletion h x [] [] ∈ (evictNodes c h gv nodes drained w).events := by
  induction nodes generalizing drained w with
  | nil => exact Or.inl (by simpa [evictNodes] using hx)
  | cons n rest ih =>
    cases hv : (evictPods c h n gv w).val.2 with
    | some e =>
      rw [evictNodes_cons_error c h gv n rest drained w e hv] at hx
      exact Or.inl hx
    | none =>
      rw [evictNodes_cons_ok c h gv n rest drained w hv] at hx ⊢
      rcases ih _ _ hx with h1 | h1
      · rcases evictNode_justified c h gv n drained w x h1 with h2 | h2
        · exact Or.inl h2
        · exact Or.inr (List.mem_append_left _ h2)
      · exact Or.inr (List.mem_append_right _ h1)

theorem evictNodes_evict_listed (c : Cluster σ) (h : Helper) (gv : String) (nodes : List Node)
    (drained : List String) (w : σ) (pod : Pod) (gv1 : String) (err : Option Err)
    (hev : Event.evictPod pod gv1 err ∈ (evictNodes c h gv nodes drained w).events) :
    ∃ n ∈ nodes, ∃ pods, pod ∈ pods ∧
      Event.getPodsForDeletion h n.name pods [] ∈ (evictNodes c h gv nodes drained w).events := by
  induction nodes generalizing drained w with
  | nil => simp [evictNodes] at hev
  | cons n rest ih =>
    cases hv : (evictPods c h n gv w).val.2 with
    | some e =>
      rw [evictNodes_cons_error c h gv n rest drained w e hv] at hev ⊢
      obtain ⟨h1, h2⟩ := evictPods_evict_listed c h n gv w pod gv1 err hev
      exact ⟨n, List.mem_cons_self _ _, _, h1, h2⟩
    | none =>
      rw [evictNodes_cons_ok c h gv n rest drained w hv] at hev ⊢
      rcases List.mem_append.mp hev with hev | hev
      · rcases evictNode_mem_events c h gv n drained w _ hev with h0 | ⟨h0, _⟩
        · obtain ⟨h1, h2⟩ := evictPods_evict_listed c h n gv w pod gv1 err h0
          exact ⟨n, List.mem_cons_self _ _, _, h1,
            List.mem_append_left _ (evictNode_events_of_evictPods c h gv n drained w _ h2)⟩
        · simp at h0
      · obtain ⟨m, hm, pods, h1, h2⟩ := ih _ _ hev
        exact ⟨m, List.mem_cons_of_mem _ hm, pods, h1, List.mem_append_right _ h2⟩

theorem evictNodes_error_event (c : Cluster σ) (h : Helper) (gv : String) (nodes : List Node)
    (drained : List String) (w : σ) (pod : Pod) (gv1 : String) (e : Err)
    (hev : Event.evictPod pod gv1 (some e) ∈ (evictNodes c h gv nodes drained w).events) :
    (evictNodes c h gv nodes drained w).val.1 = some e := by
  induction nodes generalizing drained w with
  | nil => simp [evictNodes] at hev
  | cons n rest ih =>
    cases hv : (evictPods c h n gv w).val.2 with
    | some e0 =>
      rw [evictNodes_cons_error c h gv n rest drained w e0 hv] at hev ⊢
      have := evictPods_error_event c h n gv w pod gv1 e hev
      rw [hv] at this
      exact this
    | none =>
      rw [evictNodes_cons_ok c h gv n rest drained w hv] at hev ⊢
      rcases List.mem_append.mp hev with hev | hev
      · rcases evictNode_mem_events c h gv n drained w _ hev with h0 | ⟨h0, _⟩
        · have := evictPods_error_event c h n gv w pod gv1 e h0
          rw [hv] at this
          simp at this
        · simp at h0
      · exact ih _ _ hev

/-- Where an error returned by the eviction loop comes from. -/
theorem evictNodes_val_error (c : Cluster σ) (h : Helper) (gv : String) (nodes : List Node)
    (drained : List String) (w : σ) (e : Err)
    (hv : (evictNodes c h gv nodes drained w).val.1 = some e) :
    (∃ pod, Event.evictPod pod gv (some e) ∈ (evictNodes c h gv nodes drained w).events) ∨
      (∃ n ∈ nodes, ∃ pods errs, errs ≠ [] ∧ e = errsError errs ∧
        Event.getPodsForDeletion h n.name pods errs ∈
          (evictNodes c h gv nodes drained w).events) := by
  induction nodes generalizing drained w with
  | nil => simp [evictNodes] at hv
  | cons n rest ih =>
    cases hp : (evictPods c h n gv w).val.2 with
    | some e0 =>
      rw [evictNodes_cons_error c h gv n rest drained w e0 hp] at hv ⊢
      simp only [Option.some.injEq] at hv
      subst hv
      rcases evictPods_val_error c h n gv w e0 hp with ⟨pod, h1⟩ | ⟨pods, errs, h1, h2, h3⟩
      · exact Or.inl ⟨pod, h1⟩
      · exact Or.inr ⟨n, List.mem_cons_self _ _, pods, errs, h1, h2, h3⟩
    | none =>
      rw [evictNodes_cons_ok c h gv n rest drained w hp] at hv ⊢
      rcases ih _ _ hv with ⟨pod, h1⟩ | ⟨m, hm, pods, errs, h1, h2, h3⟩
      · exact Or.inl ⟨pod, List.mem_append_right _ h1⟩
      · exact Or.inr ⟨m, List.mem_cons_of_mem _ hm, pods, errs, h1, h2,
          List.mem_append_right _ h3⟩

/-- A node of the listing gets its `evictPods` call when `evictPods` returns no
error for the nodes listed before it. -/
theorem evictNodes_sweeps (c : Cluster σ) (h : Helper) (gv : String) (pre : List Node) (n : Node)
    (post : List Node) (drained : List String) (w : σ)
    (hpre : (evictNodes c h gv pre drained w).val.1 = none) :
    ∃ pods errs, Event.getPodsForDeletion h n.name pods errs ∈
      (evictNodes c h gv (pre ++ n :: post) drained w).events := by
  induction pre generalizing drained w with
  | nil =>
    refine ⟨(c.getPodsForDeletion h n.name w).1.1.pods, (c.getPodsForDeletion h n.name w).1.2, ?_⟩
    have hl := evictPods_listing_event c h n gv w
    cases hp : (evictPods c h n gv w).val.2 with
    | some e0 =>
      rw [List.nil_append, evictNodes_cons_error c h gv n post drained w e0 hp]
      exact hl
    | none =>
      rw [List.nil_append, evictNodes_cons_ok c h gv n post drained w hp]
      exact List.mem_append_left _ (evictNode_events_of_evictPods c h gv n drained w _ hl)
  | cons m rest ih =>
    cases hp : (evictPods c h m gv w).val.2 with
    | some e0 =>
      rw [evictNodes_cons_error c h gv m rest drained w e0 hp] at hpre
      simp at hpre
    | none =>
      rw [evictNodes_cons_ok c h gv m rest drained w hp] at hpre
      obtain ⟨pods, errs, h1⟩ := ih _ _ hpre
      refine ⟨pods, errs, ?_⟩
      rw [List.cons_append, evictNodes_cons_ok c h gv m _ drained w hp]
      exact List.mem_append_right _ h1

/-- When the eviction loop returns no error, every node of the listing got its
`evictPods` call, and its listing reported no error. -/
theorem evictNodes_sweeps_all (c : Cluster σ) (h : Helper) (gv : String) (nodes : List Node)
    (drained : List String) (w : σ) (hv : (evictNodes c h gv nodes drained w).val.1 = none)
    (n : Node) (hn : n ∈ nodes) :
    ∃ pods, Event.getPodsForDeletion h n.name pods [] ∈
      (evictNodes c h gv nodes drained w).events := by
  induction nodes generalizing drained w with
  | nil => simp at hn
  | cons m rest ih =>
    cases hp : (evictPods c h m gv w).val.2 with
    | some e0 =>
      rw [evictNodes_cons_error c h gv m rest drained w e0 hp] at hv
      simp at hv
    | none =>
      rw [evictNodes_cons_ok c h gv m rest drained w hp] at hv ⊢
      rcases List.mem_cons.mp hn with hn | hn
      · subst hn
        have hl := evictPods_listing_event c h n gv w
        have he : (c.getPodsForDeletion h n.name w).1.2 = [] := by
          by_contra hne
          rw [evictPods_val, if_neg hne] at hp
          simp at hp
        rw [he] at hl
        exact ⟨_, List.mem_append_left _ (evictNode_events_of_evictPods c h gv n drained w _ hl)⟩
      · obtain ⟨pods, h1⟩ := ih _ _ hv hn
        exact ⟨pods, List.mem_append_right _ h1⟩

/-- The calls made by the eviction loop. -/
theorem evictNodes_mem_events (c : Cluster σ) (h : Helper) (gv : String) (nodes : List Node)
    (drained : List String) (w : σ) (ev : Event)
    (hev : ev ∈ (evictNodes c h gv nodes drained w).events) :
    (∃ n ∈ nodes, ∃ pods errs, ev = Event.getPodsForDeletion h n.name pods errs) ∨
      (∃ pod err, ev = Event.evictPod pod gv err) ∨
      (∃ n ∈ nodes, ev = Event.insertDrained n.name) := by
  induction nodes generalizing drained w with
  | nil => simp [evictNodes] at hev
  | cons m rest ih =>
    have hpods : ∀ ev, ev ∈ (evictPods c h m gv w).events →
        (∃ n ∈ m :: rest, ∃ pods errs, ev = Event.getPodsForDeletion h n.name pods errs) ∨
          (∃ pod err, ev = Event.evictPod pod gv err) ∨
          (∃ n ∈ m :: rest, ev = Event.insertDrained n.name) := by
      intro ev h0
      rcases evictPods_mem_events c h m gv w _ h0 with h2 | ⟨_, pod, err, h2, _⟩
      · exact Or.inl ⟨m, List.mem_cons_self _ _, _, _, h2⟩
      · exact Or.inr (Or.inl ⟨pod, err, h2⟩)
    cases hp : (evictPods c h m gv w).val.2 with
    | some e0 =>
      rw [evictNodes_cons_error c h gv m rest drained w e0 hp] at hev
      exact hpods ev hev
    | none =>
      rw [evictNodes_cons_ok c h gv m rest drained w hp] at hev
      rcases List.mem_append.mp hev with hev | hev
      · rcases evictNode_mem_events c h gv m drained w _ hev with h0 | ⟨h0, _⟩
        · exact hpods ev h0
        · exact Or.inr (Or.inr ⟨m, List.mem_cons_self _ _, h0⟩)
      · rcases ih _ _ hev with ⟨n, hn, h2⟩ | h2 | ⟨n, hn, h2⟩
        · exact Or.inl ⟨n, List.mem_cons_of_mem _ hn, h2⟩
        · exact Or.inr (Or.inl h2)
        · exact Or.inr (Or.inr ⟨n, List.mem_cons_of_mem _ hn, h2⟩)

/-! ## The cordon loop over the nodes of a listing -/

theorem cordonNodes_cons_drained (c : Cluster σ) (drained : List String) (node : Node)
    (rest : List Node) (pending : List String) (w : σ) (hd : node.name ∈ drained) :
    cordonNodes c drained (node :: rest) pending w = cordonNodes c drained rest pending w := by
  conv_lhs => unfold cordonNodes
  simp [hd]

theorem cordonNodes_cons_patch (c : Cluster σ) (drained : List String) (node : Node)
    (rest : List Node) (pending : List String) (w : σ) (hd : node.name ∉ drained)
    (hu : UpdateIfRequired node true = true) :
    cordonNodes c drained (node :: rest) pending w =
      ⟨(cordonNodes c drained rest (pending.insert node.name) (c.patchOrReplace node w).2).val,
        (cordonNodes c drained rest (pending.insert node.name) (c.patchOrReplace node w).2).world,
        Event.updateIfRequired node true ::
          Event.patchOrReplace node (c.patchOrReplace node w).1.1 (c.patchOrReplace node w).1.2 ::
          (cordonNodes c drained rest (pending.insert node.name)
            (c.patchOrReplace node w).2).events⟩ := by
  conv_lhs => unfold cordonNodes
  simp [hd, hu]

theorem cordonNodes_cons_skip (c : Cluster σ) (drained : List String) (node : Node)
    (rest : List Node) (pending : List String) (w : σ) (hd : node.name ∉ drained)
    (hu : UpdateIfRequired node true = false) :
    cordonNodes c drained (node :: rest) pending w =
      ⟨(cordonNodes c drained rest (pending.insert node.name) w).val,
        (cordonNodes c drained rest (pending.insert node.name) w).world,
        Event.updateIfRequired node false ::
          (cordonNodes c drained rest (pending.insert node.name) w).events⟩ := by
  conv_lhs => unfold cordonNodes
  simp [hd, hu]

/-- The names collected in `newPendingNodes`: those already there, and the
names of the listed nodes that are not in `drainedNodes`. -/
theorem cordonNodes_mem_val (c : Cluster σ) (drained : List String) (nodes : List Node)
    (pending : List String) (w : σ) (x : String) :
    x ∈ (cordonNodes c drained nodes pending w).val ↔
      x ∈ pending ∨ ∃ n ∈ nodes, n.name = x ∧ x ∉ drained := by
  induction nodes generalizing pending w with
  | nil => simp [cordonNodes]
  | cons n rest ih =>
    by_cases hd : n.name ∈ drained
    · rw [cordonNodes_cons_drained c drained n rest pending w hd, ih]
      constructor
      · rintro (h1 | ⟨m, hm, h1, h2⟩)
        · exact Or.inl h1
        · exact Or.inr ⟨m, List.mem_cons_of_mem _ hm, h1, h2⟩
      · rintro (h1 | ⟨m, hm, h1, h2⟩)
        · exact Or.inl h1
        · rcases List.mem_cons.mp hm with hm | hm
          · subst hm
            exact absurd (h1 ▸ hd) h2
          · exact Or.inr ⟨m, hm, h1, h2⟩
    · have key : x ∈ (cordonNodes c drained (n :: rest) pending w).val ↔
          x ∈ pending.insert n.name ∨ ∃ m ∈ rest, m.name = x ∧ x ∉ drained := by
        cases hu : UpdateIfRequired n true with
        | true => rw [cordonNodes_cons_patch c drained n rest pending w hd hu]; exact ih _ _
        | false => rw [cordonNodes_cons_skip c drained n rest pending w hd hu]; exact ih _ _
      rw [key, List.mem_insert_iff]
      constructor
      · rintro ((h1 | h1) | ⟨m, hm, h1, h2⟩)
        · exact Or.inr ⟨n, List.mem_cons_self _ _, h1.symm, h1 ▸ hd⟩
        · exact Or.inl h1
        · exact Or.inr ⟨m, List.mem_cons_of_mem _ hm, h1, h2⟩
      · rintro (h1 | ⟨m, hm, h1, h2⟩)
        · exact Or.inl (Or.inr h1)
        · rcases List.mem_cons.mp hm with hm | hm
          · subst hm
            exact Or.inl (Or.inl h1.symm)
          · exact Or.inr ⟨m, hm, h1, h2⟩

/-- The calls made by the cordon loop: one `UpdateIfRequired(true)` for every
listed node outside `drainedNodes`, and a patch only where it reported a change. -/
theorem cordonNodes_mem_events (c : Cluster σ) (drained : List String) (nodes : List Node)
    (pending : List String) (w : σ) (ev : Event)
    (hev : ev ∈ (cordonNodes c drained nodes pending w).events) :
    ∃ n ∈ nodes, n.name ∉ drained ∧
      (ev = Event.updateIfRequired n (UpdateIfRequired n true) ∨
        (UpdateIfRequired n true = true ∧ ∃ err patchErr, ev = Event.patchOrReplace n err patchErr)) := by
  induction nodes generalizing pending w with
  | nil => simp [cordonNodes] at hev
  | cons n rest ih =>
    by_cases hd : n.name ∈ drained
    · rw [cordonNodes_cons_drained c drained n rest pending w hd] at hev
      obtain ⟨m, hm, h1⟩ := ih _ _ hev
      exact ⟨m, List.mem_cons_of_mem _ hm, h1⟩
    · cases hu : UpdateIfRequired n true with
      | true =>
        rw [cordonNodes_cons_patch c drained n rest pending w hd hu] at hev
        simp only [List.mem_cons] at hev
        rcases hev with hev | hev | hev
        · exact ⟨n, List.mem_cons_self _ _, hd, Or.inl (by rw [hev, hu])⟩
        · exact ⟨n, List.mem_cons_self _ _, hd, Or.inr ⟨hu, _, _, hev⟩⟩
        · obtain ⟨m, hm, h1⟩ := ih _ _ hev
          exact ⟨m, List.mem_cons_of_mem _ hm, h1⟩
      | false =>
        rw [cordonNodes_cons_skip c drained n rest pending w hd hu] at hev
        simp only [List.mem_cons] at hev
        rcases hev with hev | hev
        · exact ⟨n, List.mem_cons_self _ _, hd, Or.inl (by rw [hev, hu])⟩
        · obtain ⟨m, hm, h1⟩ := ih _ _ hev
          exact ⟨m, List.mem_cons_of_mem _ hm, h1⟩

/-- Every listed node outside `drainedNodes` gets its cordon attempt. -/
theorem cordonNodes_attempts (c : Cluster σ) (drained : List String) (nodes : List Node)
    (pending : List String) (w : σ) (n : Node) (hn : n ∈ nodes) (hd : n.name ∉ drained) :
    Event.updateIfRequired n (UpdateIfRequired n true) ∈
      (cordonNodes c drained nodes pending w).events := by
  induction nodes generalizing pending w with
  | nil => simp at hn
  | cons m rest ih =>
    by_cases hmd : m.name ∈ drained
    · rw [cordonNodes_cons_drained c drained m rest pending w hmd]
      rcases List.mem_cons.mp hn with hn | hn
      · subst hn
        exact absurd hmd hd
      · exact ih _ _ hn
    · cases hu : UpdateIfRequired m true with
      | true =>
        rw [cordonNodes_cons_patch c drained m rest pending w hmd hu]
        rcases List.mem_cons.mp hn with hn | hn
        · subst hn
          rw [hu]
          exact List.mem_cons_self _ _
        · exact List.mem_cons_of_mem _ (List.mem_cons_of_mem _ (ih _ _ hn))
      | false =>
        rw [cordonNodes_cons_skip c drained m rest pending w hmd hu]
        rcases List.mem_cons.mp hn with hn | hn
        · subst hn
          rw [hu]
          exact List.mem_cons_self _ _
        · exact List.mem_cons_of_mem _ (ih _ _ hn)

theorem cordonNodes_all_drained (c : Cluster σ) (drained : List String) (nodes : List Node)
    (pending : List String) (w : σ) (hall : ∀ n ∈ nodes, n.name ∈ drained) :
    cordonNodes c drained nodes pending w = ⟨pending, w, []⟩ := by
  induction nodes with
  | nil => rfl
  | cons n rest ih =>
    rw [cordonNodes_cons_drained c drained n rest pending w (hall n (List.mem_cons_self _ _))]
    exact ih (fun m hm => hall m (List.mem_cons_of_mem _ hm))

/-- `drainedNodes.HasAll(newPendingNodes.List()...)` holds exactly when every
listed node is in `drainedNodes`. -/
theorem hasAll_cordonNodes (c : Cluster σ) (drained : List String) (nodes : List Node) (w : σ) :
    hasAll drained (cordonNodes c drained nodes [] w).val = true ↔
      ∀ n ∈ nodes, n.name ∈ drained := by
  unfold hasAll
  rw [List.all_eq_true]
  constructor
  · intro hall n hn
    by_contra hd
    have hx : n.name ∈ (cordonNodes c drained nodes [] w).val :=
      (cordonNodes_mem_val c drained nodes [] w n.name).mpr (Or.inr ⟨n, hn, rfl, hd⟩)
    have := hall _ hx
    simp only [decide_eq_true_eq] at this
    exact hd this
  · intro hall x hx
    rw [cordonNodes_all_drained c drained nodes [] w hall] at hx
    simp at hx

/-! ## One pass of the loop -/

theorem pass_of_list_error (c : Cluster σ) (h : Helper) (ngName gv : String)
    (drained : List String) (w : σ) (e : Err) (w1 : σ)
    (hl : c.listNodes ngName w = (Except.error e, w1)) :
    pass c h ngName gv drained w =
      ⟨(PassEnd.failed e, drained), w1, [Event.listNodes ngName none]⟩ := by
  unfold pass
  rw [hl]

theorem pass_of_all_drained (c : Cluster σ) (h : Helper) (ngName gv : String)
    (drained : List String) (w : σ) (nodes : List Node) (w1 : σ)
    (hl : c.listNodes ngName w = (Except.ok nodes, w1))
    (hall : ∀ n ∈ nodes, n.name ∈ drained) :
    pass c h ngName gv drained w =
      ⟨(PassEnd.done, drained), w1, [Event.listNodes ngName (some nodes)]⟩ := by
  unfold pass
  rw [hl]
  simp only [(hasAll_cordonNodes c drained nodes w1).mpr hall, if_true]
  rw [cordonNodes_all_drained c drained nodes [] w1 hall]

theorem pass_of_pending (c : Cluster σ) (h : Helper) (ngName gv : String)
    (drained : List String) (w : σ) (nodes : List Node) (w1 : σ)
    (hl : c.listNodes ngName w = (Except.ok nodes, w1))
    (hsome : ¬ ∀ n ∈ nodes, n.name ∈ drained) :
    pass c h ngName gv drained w =
      ⟨(sweepEnd (evictNodes c h gv nodes drained (cordonNodes c drained nodes [] w1).world).val.1,
          (evictNodes c h gv nodes drained (cordonNodes c drained nodes [] w1).world).val.2),
        (evictNodes c h gv nodes drained (cordonNodes c drained nodes [] w1).world).world,
        Event.listNodes ngName (some nodes) ::
          ((cordonNodes c drained nodes [] w1).events ++
            (evictNodes c h gv nodes drained (cordonNodes c drained nodes [] w1).world).events)⟩ := by
  have hf : hasAll drained (cordonNodes c drained nodes [] w1).val = false := by
    cases hh : hasAll drained (cordonNodes c drained nodes [] w1).val with
    | false => rfl
    | true => exact absurd ((hasAll_cordonNodes c drained nodes w1).mp hh) hsome
  unfold pass
  rw [hl]
  simp only [hf]
  rcases hr : (evictNodes c h gv nodes drained (cordonNodes c drained nodes [] w1).world).val
    with ⟨err, d⟩
  cases err <;> simp [hr, sweepEnd]

/-- A pass ends the loop with success exactly when its listing succeeds and
every listed node is in `drainedNodes`. -/
theorem pass_done_iff (c : Cluster σ) (h : Helper) (ngName gv : String)
    (drained : List String) (w : σ) :
    (pass c h ngName gv drained w).val.1 = PassEnd.done ↔
      ∃ nodes, (c.listNodes ngName w).1 = Except.ok nodes ∧ ∀ n ∈ nodes, n.name ∈ drained := by
  rcases hl : c.listNodes ngName w with ⟨res, w1⟩
  cases res with
  | error e =>
    rw [pass_of_list_error c h ngName gv drained w e w1 hl]
    simp
  | ok nodes =>
    by_cases hall : ∀ n ∈ nodes, n.name ∈ drained
    · rw [pass_of_all_drained c h ngName gv drained w nodes w1 hl hall]
      simp only [true_iff]
      exact ⟨nodes, rfl, hall⟩
    · rw [pass_of_pending c h ngName gv drained w nodes w1 hl hall]
      constructor
      · intro hd
        simp only at hd
        cases hv : (evictNodes c h gv nodes drained (cordonNodes c drained nodes [] w1).world).val.1
          <;> rw [hv] at hd <;> simp [sweepEnd] at hd
      · rintro ⟨nodes1, h1, h2⟩
        simp only [Except.ok.injEq] at h1
        subst h1
        exact absurd h2 hall

theorem pass_subset (c : Cluster σ) (h : Helper) (ngName gv : String)
    (drained : List String) (w : σ) (x : String) (hx : x ∈ drained) :
    x ∈ (pass c h ngName gv drained w).val.2 := by
  rcases hl : c.listNodes ngName w with ⟨res, w1⟩
  cases res with
  | error e =>
    rw [pass_of_list_error c h ngName gv drained w e w1 hl]
    exact hx
  | ok nodes =>
    by_cases hall : ∀ n ∈ nodes, n.name ∈ drained
    · rw [pass_of_all_drained c h ngName gv drained w nodes w1 hl hall]
      exact hx
    · rw [pass_of_pending c h ngName gv drained w nodes w1 hl hall]
      exact evictNodes_subset c h gv nodes drained _ x hx

theorem pass_justified (c : Cluster σ) (h : Helper) (ngName gv : String)
    (drained : List String) (w : σ) (x : String)
    (hx : x ∈ (pass c h ngName gv drained w).val.2) :
    x ∈ drained ∨
      Event.getPodsForDeletion h x [] [] ∈ (pass c h ngName gv drained w).events := by
  rcases hl : c.listNodes ngName w with ⟨res, w1⟩
  cases res with
  | error e =>
    rw [pass_of_list_error c h ngName gv drained w e w1 hl] at hx
    exact Or.inl hx
  | ok nodes =>
    by_cases hall : ∀ n ∈ nodes, n.name ∈ drained
    · rw [pass_of_all_drained c h ngName gv drained w nodes w1 hl hall] at hx
      exact Or.inl hx
    · rw [pass_of_pending c h ngName gv drained w nodes w1 hl hall] at hx ⊢
      rcases evictNodes_justified c h gv nodes drained _ x hx with h1 | h1
      · exact Or.inl h1
      · exact Or.inr (List.mem_cons_of_mem _ (List.mem_append_right _ h1))

/-- The calls of a pass: the listing, then the cordon loop and the eviction
loop over the listed nodes when some listed node is outside `drainedNodes`. -/
theorem pass_mem_events (c : Cluster σ) (h : Helper) (ngName gv : String)
    (drained : List String) (w : σ) (ev : Event)
    (hev : ev ∈ (pass c h ngName gv drained w).events) :
    (∃ o, ev = Event.listNodes ngName o) ∨
      ∃ nodes w1, c.listNodes ngName w = (Except.ok nodes, w1) ∧
        (¬ ∀ n ∈ nodes, n.name ∈ drained) ∧
        (pass c h ngName gv drained w).val.1 =
          sweepEnd (evictNodes c h gv nodes drained (cordonNodes c drained nodes [] w1).world).val.1 ∧
        (ev ∈ (cordonNodes c drained nodes [] w1).events ∨
          ev ∈ (evictNodes c h gv nodes drained (cordonNodes c drained nodes [] w1).world).events) := by
  rcases hl : c.listNodes ngName w with ⟨res, w1⟩
  cases res with
  | error e =>
    rw [pass_of_list_error c h ngName gv drained w e w1 hl] at hev
    exact Or.inl ⟨none, List.mem_singleton.mp hev⟩
  | ok nodes =>
    by_cases hall : ∀ n ∈ nodes, n.name ∈ drained
    · rw [pass_of_all_drained c h ngName gv drained w nodes w1 hl hall] at hev
      exact Or.inl ⟨some nodes, List.mem_singleton.mp hev⟩
    · rw [pass_of_pending c h ngName gv drained w nodes w1 hl hall] at hev ⊢
      rcases List.mem_cons.mp hev with hev | hev
      · exact Or.inl ⟨some nodes, hev⟩
      · exact Or.inr ⟨nodes, w1, rfl, hall, rfl, List.mem_append.mp hev⟩

theorem pass_error_event (c : Cluster σ) (h : Helper) (ngName gv : String)
    (drained : List String) (w : σ) (pod : Pod) (gv1 : String) (e : Err)
    (hev : Event.evictPod pod gv1 (some e) ∈ (pass c h ngName gv drained w).events) :
    (pass c h ngName gv drained w).val.1 = PassEnd.failed e := by
  rcases pass_mem_events c h ngName gv drained w _ hev with ⟨o, h1⟩ | ⟨nodes, w1, _, _, hv, h1 | h1⟩
  · simp at h1
  · obtain ⟨n, _, _, h2 | ⟨_, _, _, h2⟩⟩ := cordonNodes_mem_events c drained nodes [] w1 _ h1 <;>
      simp at h2
  · rw [hv, evictNodes_error_event c h gv nodes drained _ pod gv1 e h1]
    rfl

theorem pass_evict_listed (c : Cluster σ) (h : Helper) (ngName gv : String)
    (drained : List String) (w : σ) (pod : Pod) (gv1 : String) (err : Option Err)
    (hev : Event.evictPod pod gv1 err ∈ (pass c h ngName gv drained w).events) :
    ∃ node pods, pod ∈ pods ∧
      Event.getPodsForDeletion h node pods [] ∈ (pass c h ngName gv drained w).events := by
  rcases pass_mem_events c h ngName gv drained w _ hev with
    ⟨o, h1⟩ | ⟨nodes, w1, hl, hall, _, h1 | h1⟩
  · simp at h1
  · obtain ⟨n, _, _, h2 | ⟨_, _, _, h2⟩⟩ := cordonNodes_mem_events c drained nodes [] w1 _ h1 <;>
      simp at h2
  · obtain ⟨n, _, pods, h2, h3⟩ := evictNodes_evict_listed c h gv nodes drained _ pod gv1 err h1
    refine ⟨n.name, pods, h2, ?_⟩
    rw [pass_of_pending c h ngName gv drained w nodes w1 hl hall]
    exact List.mem_cons_of_mem _ (List.mem_append_right _ h3)

theorem pass_patch_event (c : Cluster σ) (h : Helper) (ngName gv : String)
    (drained : List String) (w : σ) (n : Node) (err patchErr : Option Err)
    (hev : Event.patchOrReplace n err patchErr ∈ (pass c h ngName gv drained w).events) :
    (∃ nodes, (c.listNodes ngName w).1 = Except.ok nodes ∧ n ∈ nodes) ∧ n.name ∉ drained ∧
      UpdateIfRequired n true = true ∧
      Event.updateIfRequired n true ∈ (pass c h ngName gv drained w).events := by
  rcases pass_mem_events c h ngName gv drained w _ hev with
    ⟨o, h1⟩ | ⟨nodes, w1, hl, hall, _, h1 | h1⟩
  · simp at h1
  · obtain ⟨m, hm, hd, h2 | ⟨hu, _, _, h2⟩⟩ := cordonNodes_mem_events c drained nodes [] w1 _ h1
    · simp at h2
    · simp only [Event.patchOrReplace.injEq] at h2
      obtain ⟨rfl, _, _⟩ := h2
      refine ⟨⟨nodes, by rw [hl], hm⟩, hd, hu, ?_⟩
      rw [pass_of_pending c h ngName gv drained w nodes w1 hl hall]
      have := cordonNodes_attempts c drained nodes [] w1 n hm hd
      rw [hu] at this
      exact List.mem_cons_of_mem _ (List.mem_append_left _ this)
  · rcases evictNodes_mem_events c h gv nodes drained _ _ h1 with
      ⟨_, _, _, _, h2⟩ | ⟨_, _, h2⟩ | ⟨_, _, h2⟩ <;> simp at h2

/-! ## The loop -/

theorem drainLoop_of_done (c : Cluster σ) (h : Helper) (ngName gv : String) (fuel : Nat)
    (drained : List String) (w : σ)
    (hp : (pass c h ngName gv drained w).val.1 = PassEnd.done) :
    drainLoop c h ngName gv (fuel + 1) drained w =
      some ⟨none, (pass c h ngName gv drained w).val.2, (pass c h ngName gv drained w).world,
        (pass c h ngName gv drained w).events⟩ := by
  unfold drainLoop
  rcases hr : (pass c h ngName gv drained w).val with ⟨e, d⟩
  rw [hr] at hp
  simp only at hp
  subst hp
  simp [hr]

theorem drainLoop_of_failed (c : Cluster σ) (h : Helper) (ngName gv : String) (fuel : Nat)
    (drained : List String) (w : σ) (e : Err)
    (hp : (pass c h ngName gv drained w).val.1 = PassEnd.failed e) :
    drainLoop c h ngName gv (fuel + 1) drained w =
      some ⟨some e, (pass c h ngName gv drained w).val.2, (pass c h ngName gv drained w).world,
        (pass c h ngName gv drained w).events⟩ := by
  unfold drainLoop
  rcases hr : (pass c h ngName gv drained w).val with ⟨e, d⟩
  rw [hr] at hp
  simp only at hp
  subst hp
  simp [hr]

theorem drainLoop_of_again (c : Cluster σ) (h : Helper) (ngName gv : String) (fuel : Nat)
    (drained : List String) (w : σ)
    (hp : (pass c h ngName gv drained w).val.1 = PassEnd.again) :
    drainLoop c h ngName gv (fuel + 1) drained w =
      (drainLoop c h ngName gv fuel (pass c h ngName gv drained w).val.2
        (pass c h ngName gv drained w).world).map
        (fun r => ⟨r.err, r.drained, r.world, (pass c h ngName gv drained w).events ++ r.events⟩) := by
  conv_lhs => unfold drainLoop
  rcases hr : (pass c h ngName gv drained w).val with ⟨e, d⟩
  rw [hr] at hp
  simp only at hp
  subst hp
  simp only [hr]
  cases drainLoop c h ngName gv fuel d (pass c h ngName gv drained w).world <;> rfl

/-- Induction over the passes of a run that returns: a property of the result
that holds for a run of one pass and is carried back over a pass that asks for
another holds for every run. -/
theorem drainLoop_induction (c : Cluster σ) (h : Helper) (ngName gv : String)
    (P : List String → σ → RunResult σ → Prop)
    (hlast : ∀ d w, (pass c h ngName gv d w).val.1 ≠ PassEnd.again →
      P d w ⟨(match (pass c h ngName gv d w).val.1 with
          | PassEnd.failed e => some e
          | _ => none),
        (pass c h ngName gv d w).val.2, (pass c h ngName gv d w).world,
        (pass c h ngName gv d w).events⟩)
    (hstep : ∀ d w r, (pass c h ngName gv d w).val.1 = PassEnd.again →
      P (pass c h ngName gv d w).val.2 (pass c h ngName gv d w).world r →
      P d w ⟨r.err, r.drained, r.world, (pass c h ngName gv d w).events ++ r.events⟩)
    (fuel : Nat) (d : List String) (w : σ) (r : RunResult σ)
    (hr : drainLoop c h ngName gv fuel d w = some r) : P d w r := by
  induction fuel generalizing d w r with
  | zero => simp [drainLoop] at hr
  | succ k ih =>
    cases hp : (pass c h ngName gv d w).val.1 with
    | done =>
      rw [drainLoop_of_done c h ngName gv k d w hp] at hr
      have := hlast d w (by rw [hp]; simp)
      rw [hp] at this
      simp only [Option.some.injEq] at hr
      rw [← hr]
      exact this
    | failed e =>
      rw [drainLoop_of_failed c h ngName gv k d w e hp] at hr
      have := hlast d w (by rw [hp]; simp)
      rw [hp] at this
      simp only [Option.some.injEq] at hr
      rw [← hr]
      exact this
    | again =>
      rw [drainLoop_of_again c h ngName gv k d w hp] at hr
      cases hr1 : drainLoop c h ngName gv k (pass c h ngName gv d w).val.2
          (pass c h ngName gv d w).world with
      | none => rw [hr1] at hr; simp at hr
      | some r1 =>
        rw [hr1] at hr
        simp only [Option.map_some', Option.some.injEq] at hr
        rw [← hr]
        exact hstep d w r1 hp (ih _ _ r1 hr1)

theorem drainLoop_subset (c : Cluster σ) (h : Helper) (ngName gv : String) (fuel : Nat)
    (d : List String) (w : σ) (r : RunResult σ) (hr : drainLoop c h ngName gv fuel d w = some r)
    (x : String) (hx : x ∈ d) : x ∈ r.drained := by
  refine drainLoop_induction c h ngName gv (fun d _ r => ∀ x ∈ d, x ∈ r.drained) ?_ ?_
    fuel d w r hr x hx
  · intro d w _ x hx
    exact pass_subset c h ngName gv d w x hx
  · intro d w r _ ih x hx
    exact ih x (pass_subset c h ngName gv d w x hx)

theorem drainLoop_justified (c : Cluster σ) (h : Helper) (ngName gv : String) (fuel : Nat)
    (d : List String) (w : σ) (r : RunResult σ) (hr : drainLoop c h ngName gv fuel d w = some r)
    (x : String) (hx : x ∈ r.drained) :
    x ∈ d ∨ Event.getPodsForDeletion h x [] [] ∈ r.events := by
  refine drainLoop_induction c h ngName gv
    (fun d _ r => ∀ x ∈ r.drained, x ∈ d ∨ Event.getPodsForDeletion h x [] [] ∈ r.events) ?_ ?_
    fuel d w r hr x hx
  · intro d w _ x hx
    exact pass_justified c h ngName gv d w x hx
  · intro d w r _ ih x hx
    rcases ih x hx with h1 | h1
    · rcases pass_justified c h ngName gv d w x h1 with h2 | h2
      · exact Or.inl h2
      · exact Or.inr (List.mem_append_left _ h2)
    · exact Or.inr (List.mem_append_right _ h1)

/-- A run that returns success ends with a pass that only lists the nodes, and
every node of that listing is in `drainedNodes`. -/
theorem drainLoop_success (c : Cluster σ) (h : Helper) (ngName gv : String) (fuel : Nat)
    (d : List String) (w : σ) (r : RunResult σ) (hr : drainLoop c h ngName gv fuel d w = some r)
    (herr : r.err = none) :
    ∃ before nodes, r.events = before ++ [Event.listNodes ngName (some nodes)] ∧
      ∀ n ∈ nodes, n.name ∈ r.drained := by
  refine drainLoop_induction c h ngName gv
    (fun _ _ r => r.err = none →
      ∃ before nodes, r.events = before ++ [Event.listNodes ngName (some nodes)] ∧
        ∀ n ∈ nodes, n.name ∈ r.drained) ?_ ?_ fuel d w r hr herr
  · intro d w hne herr
    cases hp : (pass c h ngName gv d w).val.1 with
    | again => exact absurd hp hne
    | failed e => rw [hp] at herr; simp at herr
    | done =>
      obtain ⟨nodes, hl, hall⟩ := (pass_done_iff c h ngName gv d w).mp hp
      rcases hl1 : c.listNodes ngName w with ⟨res, w1⟩
      rw [hl1] at hl
      simp only at hl
      subst hl
      refine ⟨[], nodes, ?_, ?_⟩
      · simp only [pass_of_all_drained c h ngName gv d w nodes w1 hl1 hall, List.nil_append]
      · simp only [pass_of_all_drained c h ngName gv d w nodes w1 hl1 hall]
        exact hall
  · intro d w r _ ih herr
    obtain ⟨before, nodes, h1, h2⟩ := ih herr
    exact ⟨(pass c h ngName gv d w).events ++ before, nodes,
      by simp only [h1, List.append_assoc], h2⟩

/-- An error returned by `EvictPod` anywhere in a run is the error the run
returns. -/
theorem drainLoop_error_event (c : Cluster σ) (h : Helper) (ngName gv : String) (fuel : Nat)
    (d : List String) (w : σ) (r : RunResult σ) (hr : drainLoop c h ngName gv fuel d w = some r)
    (pod : Pod) (gv1 : String) (e : Err) (hev : Event.evictPod pod gv1 (some e) ∈ r.events) :
    r.err = some e := by
  refine drainLoop_induction c h ngName gv
    (fun _ _ r => ∀ pod gv1 e, Event.evictPod pod gv1 (some e) ∈ r.events → r.err = some e) ?_ ?_
    fuel d w r hr pod gv1 e hev
  · intro d w _ pod gv1 e hev
    rw [pass_error_event c h ngName gv d w pod gv1 e hev]
  · intro d w r hp ih pod gv1 e hev
    rcases List.mem_append.mp hev with hev | hev
    · have := pass_error_event c h ngName gv d w pod gv1 e hev
      rw [hp] at this
      simp at this
    · exact ih pod gv1 e hev

theorem drainLoop_evict_listed (c : Cluster σ) (h : Helper) (ngName gv : String) (fuel : Nat)
    (d : List String) (w : σ) (r : RunResult σ) (hr : drainLoop c h ngName gv fuel d w = some r)
    (pod : Pod) (gv1 : String) (err : Option Err) (hev : Event.evictPod pod gv1 err ∈ r.events) :
    ∃ node pods, pod ∈ pods ∧ Event.getPodsForDeletion h node pods [] ∈ r.events := by
  refine drainLoop_induction c h ngName gv
    (fun _ _ r => ∀ pod gv1 err, Event.evictPod pod gv1 err ∈ r.events →
      ∃ node pods, pod ∈ pods ∧ Event.getPodsForDeletion h node pods [] ∈ r.events) ?_ ?_
    fuel d w r hr pod gv1 err hev
  · intro d w _ pod gv1 err hev
    exact pass_evict_listed c h ngName gv d w pod gv1 err hev
  · intro d w r _ ih pod gv1 err hev
    rcases List.mem_append.mp hev with hev | hev
    · obtain ⟨node, pods, h1, h2⟩ := pass_evict_listed c h ngName gv d w pod gv1 err hev
      exact ⟨node, pods, h1, List.mem_append_left _ h2⟩
    · obtain ⟨node, pods, h1, h2⟩ := ih pod gv1 err hev
      exact ⟨node, pods, h1, List.mem_append_right _ h2⟩

/-! ## The whole function -/

/-- Lines 55-93 make none of the calls on nodes and pods. -/
theorem preflight_mem_events (c : Cluster σ) (clusterName ngName nameArg : String) (w : σ)
    (ev : Event) (hev : ev ∈ (preflight c clusterName ngName nameArg w).events) :
    ev = Event.newClusterProvider ∨ ev = Event.register ∨ ev = Event.checkAuth ∨
      ev = Event.getCredentials ∨ ev = Event.newStandardClientSet ∨
      ev = Event.checkEvictionSupport := by
  unfold preflight at hev
  repeat' split at hev
  all_goals
    simp only [Preflight.events, List.mem_cons, List.mem_singleton, List.not_mem_nil,
      or_false] at hev
    tauto

/-- A run that returns either returned from lines 55-93, or ran the loop from an
empty `drainedNodes` with the helper built at lines 95-124. -/
theorem doDrainNodeGroup_cases (c : Cluster σ) (fuel : Nat) (clusterName ngName nameArg : String)
    (w : σ) (r : RunResult σ) (hr : doDrainNodeGroup c fuel clusterName ngName nameArg w = some r) :
    (∃ err w1 ev, preflight c clusterName ngName nameArg w = Preflight.returned err w1 ev ∧
        r = ⟨err, [], w1, ev⟩) ∨
      (∃ name gv w1 ev r1, preflight c clusterName ngName nameArg w = Preflight.ready name gv w1 ev ∧
        drainLoop c drainer name gv fuel [] w1 = some r1 ∧
        r = ⟨r1.err, r1.drained, r1.world, ev ++ r1.events⟩) := by
  unfold doDrainNodeGroup at hr
  cases hp : preflight c clusterName ngName nameArg w with
  | returned err w1 ev =>
    rw [hp] at hr
    simp only [Option.some.injEq] at hr
    exact Or.inl ⟨err, w1, ev, rfl, hr.symm⟩
  | ready name gv w1 ev =>
    rw [hp] at hr
    simp only at hr
    cases hl : drainLoop c drainer name gv fuel [] w1 with
    | none => rw [hl] at hr; simp at hr
    | some r1 =>
      rw [hl] at hr
      simp only [Option.some.injEq] at hr
      exact Or.inr ⟨name, gv, w1, ev, r1, rfl, hl, hr.symm⟩

theorem pass_update_event (c : Cluster σ) (h : Helper) (ngName gv : String)
    (drained : List String) (w : σ) (n : Node) (changed : Bool)
    (hev : Event.updateIfRequired n changed ∈ (pass c h ngName gv drained w).events) :
    changed = UpdateIfRequired n true := by
  rcases pass_mem_events c h ngName gv drained w _ hev with
    ⟨o, h1⟩ | ⟨nodes, w1, _, _, _, h1 | h1⟩
  · simp at h1
  · obtain ⟨m, _, _, h2 | ⟨_, _, _, h2⟩⟩ := cordonNodes_mem_events c drained nodes [] w1 _ h1
    · simp only [Event.updateIfRequired.injEq] at h2
      rw [h2.1, h2.2]
    · simp at h2
  · rcases evictNodes_mem_events c h gv nodes drained _ _ h1 with
      ⟨_, _, _, _, h2⟩ | ⟨_, _, h2⟩ | ⟨_, _, h2⟩ <;> simp at h2

theorem drainLoop_patch_event (c : Cluster σ) (h : Helper) (ngName gv : String) (fuel : Nat)
    (d : List String) (w : σ) (r : RunResult σ) (hr : drainLoop c h ngName gv fuel d w = some r)
    (n : Node) (err patchErr : Option Err)
    (hev : Event.patchOrReplace n err patchErr ∈ r.events) :
    UpdateIfRequired n true = true ∧ Event.updateIfRequired n true ∈ r.events := by
  refine drainLoop_induction c h ngName gv
    (fun _ _ r => ∀ n err patchErr, Event.patchOrReplace n err patchErr ∈ r.events →
      UpdateIfRequired n true = true ∧ Event.updateIfRequired n true ∈ r.events) ?_ ?_
    fuel d w r hr n err patchErr hev
  · intro d w _ n err patchErr hev
    obtain ⟨_, _, h3, h4⟩ := pass_patch_event c h ngName gv d w n err patchErr hev
    exact ⟨h3, h4⟩
  · intro d w r _ ih n err patchErr hev
    rcases List.mem_append.mp hev with hev | hev
    · obtain ⟨_, _, h3, h4⟩ := pass_patch_event c h ngName gv d w n err patchErr hev
      exact ⟨h3, List.mem_append_left _ h4⟩
    · obtain ⟨h3, h4⟩ := ih n err patchErr hev
      exact ⟨h3, List.mem_append_right _ h4⟩

/-- Once `evictPods` has returned an error for a node, the nodes listed after it
are not reached. -/
theorem evictNodes_append_error (c : Cluster σ) (h : Helper) (gv : String) (pre rest : List Node)
    (drained : List String) (w : σ) (e : Err)
    (hpre : (evictNodes c h gv pre drained w).val.1 = some e) :
    evictNodes c h gv (pre ++ rest) drained w = evictNodes c h gv pre drained w := by
  induction pre generalizing drained w with
  | nil => simp [evictNodes] at hpre
  | cons m ms ih =>
    cases hp : (evictPods c h m gv w).val.2 with
    | some e0 =>
      rw [List.cons_append, evictNodes_cons_error c h gv m _ drained w e0 hp,
        evictNodes_cons_error c h gv m _ drained w e0 hp]
    | none =>
      rw [evictNodes_cons_ok c h gv m ms drained w hp] at hpre
      rw [List.cons_append, evictNodes_cons_ok c h gv m _ drained w hp,
        evictNodes_cons_ok c h gv m ms drained w hp, ih _ _ hpre]

/-- What a pass does for a listed node that is outside `drainedNodes`. -/
theorem pass_pending_node (c : Cluster σ) (h : Helper) (ngName gv : String)
    (drained : List String) (w : σ) (pre : List Node) (n : Node) (post : List Node) (w1 : σ)
    (hl : c.listNodes ngName w = (Except.ok (pre ++ n :: post), w1)) (hd : n.name ∉ drained) :
    n.name ∈ (cordonNodes c drained (pre ++ n :: post) [] w1).val ∧
      (∀ m ∈ pre ++ n :: post, m.name ∉ drained →
        Event.updateIfRequired m (UpdateIfRequired m true) ∈
          (pass c h ngName gv drained w).events) ∧
      (pass c h ngName gv drained w).val.1 ≠ PassEnd.done ∧
      ((evictNodes c h gv pre drained
          (cordonNodes c drained (pre ++ n :: post) [] w1).world).val.1 = none →
        ∃ pods errs, Event.getPodsForDeletion h n.name pods errs ∈
          (pass c h ngName gv drained w).events) ∧
      (∀ e, (evictNodes c h gv pre drained
          (cordonNodes c drained (pre ++ n :: post) [] w1).world).val.1 = some e →
        (pass c h ngName gv drained w).val.1 = PassEnd.failed e) := by
  have hn : n ∈ pre ++ n :: post := List.mem_append_right _ (List.mem_cons_self _ _)
  have hall : ¬ ∀ m ∈ pre ++ n :: post, m.name ∈ drained := fun hc => hd (hc n hn)
  have hp := pass_of_pending c h ngName gv drained w _ w1 hl hall
  refine ⟨?_, ?_, ?_, ?_, ?_⟩
  · exact (cordonNodes_mem_val c drained _ [] w1 n.name).mpr (Or.inr ⟨n, hn, rfl, hd⟩)
  · intro m hm hmd
    rw [hp]
    exact List.mem_cons_of_mem _
      (List.mem_append_left _ (cordonNodes_attempts c drained _ [] w1 m hm hmd))
  · intro hdone
    obtain ⟨nodes, h1, h2⟩ := (pass_done_iff c h ngName gv drained w).mp hdone
    rw [hl] at h1
    simp only [Except.ok.injEq] at h1
    subst h1
    exact hall h2
  · intro hpre
    obtain ⟨pods, errs, h1⟩ := evictNodes_sweeps c h gv pre n post drained _ hpre
    refine ⟨pods, errs, ?_⟩
    rw [hp]
    exact List.mem_cons_of_mem _ (List.mem_append_right _ h1)
  · intro e hpre
    rw [hp]
    simp only
    rw [evictNodes_append_error c h gv pre (n :: post) drained _ e hpre, hpre]
    rfl

/-- Where the error that ends a pass comes from: the listing of the nodes, a
refused eviction, or a listing of pods that reports errors. -/
theorem pass_val_failed (c : Cluster σ) (h : Helper) (ngName gv : String)
    (drained : List String) (w : σ) (e : Err)
    (hf : (pass c h ngName gv drained w).val.1 = PassEnd.failed e) :
    (c.listNodes ngName w).1 = Except.error e ∨
      (∃ pod, Event.evictPod pod gv (some e) ∈ (pass c h ngName gv drained w).events) ∨
      (∃ name pods errs, errs ≠ [] ∧ e = errsError errs ∧
        Event.getPodsForDeletion h name pods errs ∈ (pass c h ngName gv drained w).events) := by
  rcases hl : c.listNodes ngName w with ⟨res, w1⟩
  cases res with
  | error e1 =>
    rw [pass_of_list_error c h ngName gv drained w e1 w1 hl] at hf
    simp only [PassEnd.failed.injEq] at hf
    exact Or.inl (by rw [hf])
  | ok nodes =>
    by_cases hall : ∀ n ∈ nodes, n.name ∈ drained
    · rw [pass_of_all_drained c h ngName gv drained w nodes w1 hl hall] at hf
      simp at hf
    · rw [pass_of_pending c h ngName gv drained w nodes w1 hl hall] at hf ⊢
      simp only at hf
      cases hv : (evictNodes c h gv nodes drained (cordonNodes c drained nodes [] w1).world).val.1
        with
      | none => rw [hv] at hf; simp [sweepEnd] at hf
      | some e1 =>
        rw [hv] at hf
        simp only [sweepEnd, PassEnd.failed.injEq] at hf
        subst hf
        right
        rcases evictNodes_val_error c h gv nodes drained _ e1 hv with
          ⟨pod, h1⟩ | ⟨m, _, pods, errs, h1, h2, h3⟩
        · exact Or.inl ⟨pod, List.mem_cons_of_mem _ (List.mem_append_right _ h1)⟩
        · exact Or.inr ⟨m.name, pods, errs, h1, h2,
            List.mem_cons_of_mem _ (List.mem_append_right _ h3)⟩

/-! ## The errors of `PatchOrReplace` do not reach the control flow -/

theorem evictEach_withPatchErrors (c : Cluster σ) (f : Node → σ → Option Err × Option Err)
    (h : Helper) (gv : String) (pods : List Pod) (w : σ) :
    evictEach (c.withPatchErrors f) h gv pods w = evictEach c h gv pods w := by
  induction pods generalizing w with
  | nil => rfl
  | cons p ps ih =>
    unfold evictEach
    simp only [ih]
    rfl

theorem evictPods_withPatchErrors (c : Cluster σ) (f : Node → σ → Option Err × Option Err)
    (h : Helper) (node : Node) (gv : String) (w : σ) :
    evictPods (c.withPatchErrors f) h node gv w = evictPods c h node gv w := by
  unfold evictPods
  simp only [evictEach_withPatchErrors]
  rfl

theorem evictNode_withPatchErrors (c : Cluster σ) (f : Node → σ → Option Err × Option Err)
    (h : Helper) (gv : String) (node : Node) (drained : List String) (w : σ) :
    evictNode (c.withPatchErrors f) h gv node drained w = evictNode c h gv node drained w := by
  unfold evictNode
  simp only [evictPods_withPatchErrors]

theorem evictNodes_withPatchErrors (c : Cluster σ) (f : Node → σ → Option Err × Option Err)
    (h : Helper) (gv : String) (nodes : List Node) (drained : List String) (w : σ) :
    evictNodes (c.withPatchErrors f) h gv nodes drained w = evictNodes c h gv nodes drained w := by
  induction nodes generalizing drained w with
  | nil => rfl
  | cons n rest ih =>
    unfold evictNodes
    simp only [evictNode_withPatchErrors, ih]

theorem cordonNodes_withPatchErrors (c : Cluster σ) (f : Node → σ → Option Err × Option Err)
    (drained : List String) (nodes : List Node) (pending : List String) (w : σ) :
    (cordonNodes (c.withPatchErrors f) drained nodes pending w).val =
        (cordonNodes c drained nodes pending w).val ∧
      (cordonNodes (c.withPatchErrors f) drained nodes pending w).world =
        (cordonNodes c drained nodes pending w).world := by
  induction nodes generalizing pending w with
  | nil => exact ⟨rfl, rfl⟩
  | cons n rest ih =>
    by_cases hd : n.name ∈ drained
    · rw [cordonNodes_cons_drained _ drained n rest pending w hd,
        cordonNodes_cons_drained _ drained n rest pending w hd]
      exact ih _ _
    · cases hu : UpdateIfRequired n true with
      | true =>
        rw [cordonNodes_cons_patch _ drained n rest pending w hd hu,
          cordonNodes_cons_patch _ drained n rest pending w hd hu]
        exact ih _ _
      | false =>
        rw [cordonNodes_cons_skip _ drained n rest pending w hd hu,
          cordonNodes_cons_skip _ drained n rest pending w hd hu]
        exact ih _ _

theorem pass_withPatchErrors (c : Cluster σ) (f : Node → σ → Option Err × Option Err)
    (h : Helper) (ngName gv : String) (drained : List String) (w : σ) :
    (pass (c.withPatchErrors f) h ngName gv drained w).val = (pass c h ngName gv drained w).val ∧
      (pass (c.withPatchErrors f) h ngName gv drained w).world =
        (pass c h ngName gv drained w).world := by
  rcases hl : c.listNodes ngName w with ⟨res, w1⟩
  have hl2 : (c.withPatchErrors f).listNodes ngName w = (res, w1) := hl
  cases res with
  | error e =>
    rw [pass_of_list_error _ h ngName gv drained w e w1 hl,
      pass_of_list_error _ h ngName gv drained w e w1 hl2]
    exact ⟨rfl, rfl⟩
  | ok nodes =>
    by_cases hall : ∀ n ∈ nodes, n.name ∈ drained
    · rw [pass_of_all_drained _ h ngName gv drained w nodes w1 hl hall,
        pass_of_all_drained _ h ngName gv drained w nodes w1 hl2 hall]
      exact ⟨rfl, rfl⟩
    · rw [pass_of_pending _ h ngName gv drained w nodes w1 hl hall,
        pass_of_pending _ h ngName gv drained w nodes w1 hl2 hall]
      simp only [evictNodes_withPatchErrors,
        (cordonNodes_withPatchErrors c f drained nodes [] w1).2, and_self]

/-- A run returns the same error and the same `drainedNodes` whatever errors
`PatchOrReplace` returns. -/
theorem drainLoop_withPatchErrors (c : Cluster σ) (f : Node → σ → Option Err × Option Err)
    (h : Helper) (ngName gv : String) (fuel : Nat) (drained : List String) (w : σ) :
    (drainLoop (c.withPatchErrors f) h ngName gv fuel drained w).map
        (fun r => (r.err, r.drained)) =
      (drainLoop c h ngName gv fuel drained w).map (fun r => (r.err, r.drained)) := by
  induction fuel generalizing drained w with
  | zero => rfl
  | succ k ih =>
    obtain ⟨hv, hw⟩ := pass_withPatchErrors c f h ngName gv drained w
    cases hp : (pass c h ngName gv drained w).val.1 with
    | done =>
      rw [drainLoop_of_done c h ngName gv k drained w hp,
        drainLoop_of_done _ h ngName gv k drained w (by rw [hv, hp])]
      simp only [Option.map_some', hv]
    | failed e =>
      rw [drainLoop_of_failed c h ngName gv k drained w e hp,
        drainLoop_of_failed _ h ngName gv k drained w e (by rw [hv, hp])]
      simp only [Option.map_some', hv]
    | again =>
      rw [drainLoop_of_again c h ngName gv k drained w hp,
        drainLoop_of_again _ h ngName gv k drained w (by rw [hv, hp])]
      simp only [Option.map_map, hv, hw]
      exact ih _ _

/-- Every listed node outside `drainedNodes` whose cordon attempt reports a
change gets its patch. -/
theorem cordonNodes_patches (c : Cluster σ) (drained : List String) (nodes : List Node)
    (pending : List String) (w : σ) (n : Node) (hn : n ∈ nodes) (hd : n.name ∉ drained)
    (hu : UpdateIfRequired n true = true) :
    ∃ err patchErr, Event.patchOrReplace n err patchErr ∈
      (cordonNodes c drained nodes pending w).events := by
  induction nodes generalizing pending w with
  | nil => simp at hn
  | cons m rest ih =>
    by_cases hmd : m.name ∈ drained
    · rw [cordonNodes_cons_drained c drained m rest pending w hmd]
      rcases List.mem_cons.mp hn with hn | hn
      · subst hn
        exact absurd hmd hd
      · exact ih _ _ hn
    · cases hum : UpdateIfRequired m true with
      | true =>
        rw [cordonNodes_cons_patch c drained m rest pending w hmd hum]
        rcases List.mem_cons.mp hn with hn | hn
        · subst hn
          exact ⟨_, _, List.mem_cons_of_mem _ (List.mem_cons_self _ _)⟩
        · obtain ⟨err, patchErr, h1⟩ := ih (pending.insert m.name) (c.patchOrReplace m w).2 hn
          exact ⟨err, patchErr, List.mem_cons_of_mem _ (List.mem_cons_of_mem _ h1)⟩
      | false =>
        rw [cordonNodes_cons_skip c drained m rest pending w hmd hum]
        rcases List.mem_cons.mp hn with hn | hn
        · subst hn
          rw [hu] at hum
          exact absurd hum (by simp)
        · obtain ⟨err, patchErr, h1⟩ := ih (pending.insert m.name) w hn
          exact ⟨err, patchErr, List.mem_cons_of_mem _ h1⟩

/-! ## Convergence under a fixed membership and evictions that succeed -/

theorem Shrinks.refl (podsOn : σ → String → List Pod) (w : σ) : Shrinks podsOn w w :=
  fun _ _ hq => hq

theorem Shrinks.trans {podsOn : σ → String → List Pod} {w w1 w2 : σ}
    (h1 : Shrinks podsOn w w1) (h2 : Shrinks podsOn w1 w2) : Shrinks podsOn w w2 :=
  fun x q hq => h1 x q (h2 x q hq)

theorem evictEach_cons_ok (c : Cluster σ) (h : Helper) (gv : String) (p : Pod) (ps : List Pod)
    (w : σ) (hv : (c.evictPod h p gv w).1 = none) :
    evictEach c h gv (p :: ps) w =
      ⟨(evictEach c h gv ps (c.evictPod h p gv w).2).val,
        (evictEach c h gv ps (c.evictPod h p gv w).2).world,
        Event.evictPod p gv none :: (evictEach c h gv ps (c.evictPod h p gv w).2).events⟩ := by
  conv_lhs => unfold evictEach
  rcases he : c.evictPod h p gv w with ⟨r, w1⟩
  rw [he] at hv
  simp only at hv
  subst hv
  rfl

theorem evictPods_world (c : Cluster σ) (h : Helper) (node : Node) (gv : String) (w : σ) :
    (evictPods c h node gv w).world =
      if (c.getPodsForDeletion h node.name w).1.2 = [] then
        (evictEach c h gv (c.getPodsForDeletion h node.name w).1.1.pods
          (c.getPodsForDeletion h node.name w).2).world
      else (c.getPodsForDeletion h node.name w).2 := by
  unfold evictPods
  rcases hg : c.getPodsForDeletion h node.name w with ⟨⟨list, errs⟩, w1⟩
  cases errs with
  | nil => simp
  | cons a l => simp

theorem evictEach_converging {c : Cluster σ} {names : List String}
    {podsOn : σ → String → List Pod} (hc : Converging c names podsOn) (h : Helper) (gv : String)
    (pods : List Pod) (w : σ) :
    (evictEach c h gv pods w).val = none ∧
      ∀ x q, q ∈ podsOn (evictEach c h gv pods w).world x → q ∈ podsOn w x ∧ q ∉ pods := by
  induction pods generalizing w with
  | nil =>
    refine ⟨rfl, ?_⟩
    intro x q hq
    exact ⟨hq, List.not_mem_nil _⟩
  | cons p ps ih =>
    obtain ⟨h1, h2⟩ := hc.evictPod h p gv w
    rw [evictEach_cons_ok c h gv p ps w h1]
    obtain ⟨i1, i2⟩ := ih (c.evictPod h p gv w).2
    refine ⟨i1, ?_⟩
    intro x q hq
    obtain ⟨j1, j2⟩ := i2 x q hq
    obtain ⟨k1, k2⟩ := h2 x q j1
    refine ⟨k1, ?_⟩
    intro hm
    rcases List.mem_cons.mp hm with hm | hm
    · exact k2 hm
    · exact j2 hm

/-- Under the assumptions, `evictPods` returns the number of pods of the node
and no error, and leaves the node without pods. -/
theorem evictPods_converging {c : Cluster σ} {names : List String}
    {podsOn : σ → String → List Pod} (hc : Converging c names podsOn) (h : Helper) (node : Node)
    (gv : String) (w : σ) :
    (evictPods c h node gv w).val = ((podsOn w node.name).length, none) ∧
      Shrinks podsOn w (evictPods c h node gv w).world ∧
      podsOn (evictPods c h node gv w).world node.name = [] := by
  obtain ⟨g1, g2, g3⟩ := hc.getPodsForDeletion h node.name w
  obtain ⟨e1, e2⟩ := evictEach_converging hc h gv (podsOn w node.name)
    (c.getPodsForDeletion h node.name w).2
  rw [evictPods_val, evictPods_world, if_pos g2, if_pos g2, g1, e1]
  refine ⟨rfl, ?_, ?_⟩
  · intro x q hq
    exact g3 x q (e2 x q hq).1
  · apply List.eq_nil_iff_forall_not_mem.mpr
    intro q hq
    obtain ⟨j1, j2⟩ := e2 node.name q hq
    exact j2 (g3 node.name q j1)

/-- Under the assumptions, the eviction loop returns no error, leaves every
listed node without pods, and inserts every listed node when they all were
without pods already. -/
theorem evictNodes_converging {c : Cluster σ} {names : List String}
    {podsOn : σ → String → List Pod} (hc : Converging c names podsOn) (h : Helper) (gv : String)
    (nodes : List Node) (drained : List String) (w : σ) :
    (evictNodes c h gv nodes drained w).val.1 = none ∧
      Shrinks podsOn w (evictNodes c h gv nodes drained w).world ∧
      (∀ n ∈ nodes, podsOn (evictNodes c h gv nodes drained w).world n.name = []) ∧
      ((∀ n ∈ nodes, podsOn w n.name = []) →
        ∀ n ∈ nodes, n.name ∈ (evictNodes c h gv nodes drained w).val.2) := by
  induction nodes generalizing drained w with
  | nil =>
    refine ⟨rfl, Shrinks.refl podsOn w, ?_, ?_⟩
    · intro n hn
      simp at hn
    · intro _ n hn
      simp at hn
  | cons m rest ih =>
    obtain ⟨p1, p2, p3⟩ := evictPods_converging hc h m gv w
    have hv : (evictPods c h m gv w).val.2 = none := by rw [p1]
    rw [evictNodes_cons_ok c h gv m rest drained w hv]
    obtain ⟨i1, i2, i3, i4⟩ := ih (evictNode c h gv m drained w).val.2 (evictPods c h m gv w).world
    refine ⟨i1, Shrinks.trans p2 i2, ?_, ?_⟩
    · intro n hn
      rcases List.mem_cons.mp hn with hn | hn
      · subst hn
        apply List.eq_nil_iff_forall_not_mem.mpr
        intro q hq
        have := i2 n.name q hq
        rw [p3] at this
        simp at this
      · exact i3 n hn
    · intro hempty n hn
      have hrest : ∀ k ∈ rest, podsOn (evictPods c h m gv w).world k.name = [] := by
        intro k hk
        apply List.eq_nil_iff_forall_not_mem.mpr
        intro q hq
        have := p2 k.name q hq
        rw [hempty k (List.mem_cons_of_mem _ hk)] at this
        simp at this
      rcases List.mem_cons.mp hn with hn | hn
      · subst hn
        have hz : (evictPods c h n gv w).val = (0, none) := by
          rw [p1, hempty n (List.mem_cons_self _ _)]
          rfl
        have hin : n.name ∈ (evictNode c h gv n drained w).val.2 := by
          rw [evictNode_val_snd, if_pos hz]
          exact List.mem_insert_self _ _
        exact evictNodes_subset c h gv rest _ _ n.name hin
      · exact i4 hrest n hn

theorem cordonNodes_converging {c : Cluster σ} {names : List String}
    {podsOn : σ → String → List Pod} (hc : Converging c names podsOn) (drained : List String)
    (nodes : List Node) (pending : List String) (w : σ) :
    Shrinks podsOn w (cordonNodes c drained nodes pending w).world := by
  induction nodes generalizing pending w with
  | nil => exact Shrinks.refl podsOn w
  | cons n rest ih =>
    by_cases hd : n.name ∈ drained
    · rw [cordonNodes_cons_drained c drained n rest pending w hd]
      exact ih _ _
    · cases hu : UpdateIfRequired n true with
      | true =>
        rw [cordonNodes_cons_patch c drained n rest pending w hd hu]
        exact Shrinks.trans (hc.patchOrReplace n w) (ih _ _)
      | false =>
        rw [cordonNodes_cons_skip c drained n rest pending w hd hu]
        exact ih _ _

/-- Under the assumptions, a pass ends the loop when every name of the
membership is in `drainedNodes`; otherwise it asks for another pass, leaves
every node of the membership without pods, and inserts them all when they all
were without pods already. -/
theorem pass_converging {c : Cluster σ} {names : List String}
    {podsOn : σ → String → List Pod} (hc : Converging c names podsOn) (h : Helper)
    (ngName gv : String) (drained : List String) (w : σ) :
    ((∀ x ∈ names, x ∈ drained) → (pass c h ngName gv drained w).val = (PassEnd.done, drained)) ∧
      ((¬ ∀ x ∈ names, x ∈ drained) →
        (pass c h ngName gv drained w).val.1 = PassEnd.again ∧
          (∀ x ∈ names, podsOn (pass c h ngName gv drained w).world x = []) ∧
          ((∀ x ∈ names, podsOn w x = []) →
            ∀ x ∈ names, x ∈ (pass c h ngName gv drained w).val.2)) := by
  obtain ⟨nodes, hl, hnames, hsh⟩ := hc.listNodes ngName w
  have hl2 : c.listNodes ngName w = (Except.ok nodes, (c.listNodes ngName w).2) :=
    Prod.ext hl rfl
  have hconv : ∀ P : String → Prop, (∀ x ∈ names, P x) ↔ ∀ n ∈ nodes, P n.name := by
    intro P
    rw [← hnames]
    simp only [List.mem_map, forall_exists_index, and_imp, forall_apply_eq_imp_iff₂]
  constructor
  · intro hall
    rw [pass_of_all_drained c h ngName gv drained w nodes _ hl2 ((hconv _).mp hall)]
  · intro hsome
    have hsome2 : ¬ ∀ n ∈ nodes, n.name ∈ drained := fun hh => hsome ((hconv _).mpr hh)
    rw [pass_of_pending c h ngName gv drained w nodes _ hl2 hsome2]
    have hcs := cordonNodes_converging hc drained nodes [] (c.listNodes ngName w).2
    obtain ⟨e1, _, e3, e4⟩ := evictNodes_converging hc h gv nodes drained
      (cordonNodes c drained nodes [] (c.listNodes ngName w).2).world
    refine ⟨by simp only [e1, sweepEnd], (hconv _).mpr e3, ?_⟩
    intro hempty
    refine (hconv (fun x => x ∈ (evictNodes c h gv nodes drained
      (cordonNodes c drained nodes [] (c.listNodes ngName w).2).world).val.2)).mpr (e4 ?_)
    intro n hn
    apply List.eq_nil_iff_forall_not_mem.mpr
    intro q hq
    have := hsh n.name q (hcs n.name q hq)
    rw [(hconv (fun x => podsOn w x = [])).mp hempty n hn] at this
    simp at this

/-- Every pass lists the nodes exactly once. -/
theorem passes_pass (c : Cluster σ) (h : Helper) (ngName gv : String) (drained : List String)
    (w : σ) : passes (pass c h ngName gv drained w).events = 1 := by
  have hcordon : ∀ nodes w1, passes (cordonNodes c drained nodes [] w1).events = 0 := by
    intro nodes w1
    unfold passes
    rw [List.countP_eq_zero]
    intro ev hev
    obtain ⟨n, _, _, h2 | ⟨_, _, _, h2⟩⟩ := cordonNodes_mem_events c drained nodes [] w1 ev hev <;>
      simp [h2]
  have hevict : ∀ nodes w1, passes (evictNodes c h gv nodes drained w1).events = 0 := by
    intro nodes w1
    unfold passes
    rw [List.countP_eq_zero]
    intro ev hev
    rcases evictNodes_mem_events c h gv nodes drained w1 ev hev with
      ⟨_, _, _, _, h2⟩ | ⟨_, _, h2⟩ | ⟨_, _, h2⟩ <;> simp [h2]
  rcases hl : c.listNodes ngName w with ⟨res, w1⟩
  cases res with
  | error e =>
    rw [pass_of_list_error c h ngName gv drained w e w1 hl]
    rfl
  | ok nodes =>
    by_cases hall : ∀ n ∈ nodes, n.name ∈ drained
    · rw [pass_of_all_drained c h ngName gv drained w nodes w1 hl hall]
      rfl
    · rw [pass_of_pending c h ngName gv drained w nodes w1 hl hall]
      have h1 := hcordon nodes w1
      have h2 := hevict nodes (cordonNodes c drained nodes [] w1).world
      unfold passes at h1 h2 ⊢
      simp only [List.countP_cons, List.countP_append, h1, h2]
      rfl

theorem passes_append (a b : List Event) : passes (a ++ b) = passes a + passes b := by
  unfold passes
  exact List.countP_append _ a b

/-- More fuel does not change the result of a run that returned. -/
theorem drainLoop_mono (c : Cluster σ) (h : Helper) (ngName gv : String) (fuel extra : Nat)
    (d : List String) (w : σ) (r : RunResult σ)
    (hr : drainLoop c h ngName gv fuel d w = some r) :
    drainLoop c h ngName gv (fuel + extra) d w = some r := by
  induction fuel generalizing d w r with
  | zero => simp [drainLoop] at hr
  | succ k ih =>
    rw [Nat.add_right_comm]
    cases hp : (pass c h ngName gv d w).val.1 with
    | done =>
      rw [drainLoop_of_done c h ngName gv k d w hp] at hr
      rw [drainLoop_of_done c h ngName gv (k + extra) d w hp, hr]
    | failed e =>
      rw [drainLoop_of_failed c h ngName gv k d w e hp] at hr
      rw [drainLoop_of_failed c h ngName gv (k + extra) d w e hp, hr]
    | again =>
      rw [drainLoop_of_again c h ngName gv k d w hp] at hr
      rw [drainLoop_of_again c h ngName gv (k + extra) d w hp]
      cases hr1 : drainLoop c h ngName gv k (pass c h ngName gv d w).val.2
          (pass c h ngName gv d w).world with
      | none => rw [hr1] at hr; simp at hr
      | some r1 =>
        rw [hr1] at hr
        rw [ih _ _ r1 hr1]
        exact hr

theorem mem_placed (w : List (String × Pod)) (x : String) (q : Pod) :
    q ∈ placed w x ↔ (x, q) ∈ w := by
  unfold placed
  simp only [List.mem_map, List.mem_filter, decide_eq_true_eq]
  constructor
  · rintro ⟨⟨y, p⟩, ⟨h1, h2⟩, h3⟩
    simp only at h2 h3
    subst h2 h3
    exact h1
  · intro hm
    exact ⟨(x, q), ⟨hm, rfl⟩, rfl⟩

/-- The ideal cluster meets the assumptions of the convergence claim. -/
theorem idealCluster_converging (nodes : List Node) :
    Converging (idealCluster nodes) (nodes.map (fun n => n.name)) placed where
  listNodes := fun _ w => ⟨nodes, rfl, rfl, Shrinks.refl placed w⟩
  patchOrReplace := fun _ w => Shrinks.refl placed w
  getPodsForDeletion := fun _ _ w => ⟨rfl, rfl, Shrinks.refl placed w⟩
  evictPod := by
    intro _ p _ w
    refine ⟨rfl, ?_⟩
    intro x q hq
    have hq2 : (x, q) ∈ w.filter (fun y => decide (y.2 ≠ p)) := (mem_placed _ x q).mp hq
    rw [List.mem_filter] at hq2
    exact ⟨(mem_placed w x q).mpr hq2.1, by simpa using hq2.2⟩

theorem drainLoop_again_some (c : Cluster σ) (h : Helper) (ngName gv : String) (fuel : Nat)
    (d : List String) (w : σ) (r1 : RunResult σ)
    (hp : (pass c h ngName gv d w).val.1 = PassEnd.again)
    (hr : drainLoop c h ngName gv fuel (pass c h ngName gv d w).val.2
      (pass c h ngName gv d w).world = some r1) :
    drainLoop c h ngName gv (fuel + 1) d w =
      some ⟨r1.err, r1.drained, r1.world, (pass c h ngName gv d w).events ++ r1.events⟩ := by
  rw [drainLoop_of_again c h ngName gv fuel d w hp, hr]
  rfl

end Lemmas

/-! ## The claims -/

section Claims

variable {σ : Type}

/-- C1: the body of the eviction loop, run for a node in any pass, inserts the
node into `drainedNodes` exactly when `evictPods` returned `(0, nil)`, that is
exactly when `GetPodsForDeletion` reported no errors and an empty pod list. A
listing error makes `evictPods` return the count 0 with an error and inserts
nothing; a node on which pods were listed (three pods, two evicted and one
denied, say) is not inserted; and every name in the `drainedNodes` of a run was
listed with no pods and no errors during that run. -/
theorem C1_drained_iff_zero_evictable (c : Cluster σ) (h : Helper) (gv : String) (node : Node)
    (drained : List String) (w : σ) :
    (Event.insertDrained node.name ∈ (evictNode c h gv node drained w).events ↔
        (evictPods c h node gv w).val = (0, none)) ∧
    ((evictPods c h node gv w).val = (0, none) ↔
        (c.getPodsForDeletion h node.name w).1.2 = [] ∧
          (c.getPodsForDeletion h node.name w).1.1.pods = []) ∧
    ((evictNode c h gv node drained w).val.2 =
        if (evictPods c h node gv w).val = (0, none) then drained.insert node.name
        else drained) ∧
    ((c.getPodsForDeletion h node.name w).1.2 ≠ [] →
        (evictPods c h node gv w).val =
            (0, some (errsError (c.getPodsForDeletion h node.name w).1.2)) ∧
          (evictNode c h gv node drained w).val.2 = drained ∧
          Event.insertDrained node.name ∉ (evictNode c h gv node drained w).events) ∧
    ((c.getPodsForDeletion h node.name w).1.1.pods ≠ [] →
        (evictNode c h gv node drained w).val.2 = drained ∧
          Event.insertDrained node.name ∉ (evictNode c h gv node drained w).events) ∧
    (∀ fuel clusterName ngName nameArg r,
        doDrainNodeGroup c fuel clusterName ngName nameArg w = some r →
        ∀ x ∈ r.drained, Event.getPodsForDeletion drainer x [] [] ∈ r.events) := by
  have hins : Event.insertDrained node.name ∈ (evictNode c h gv node drained w).events ↔
      (evictPods c h node gv w).val = (0, none) := by
    constructor
    · intro hev
      rcases evictNode_mem_events c h gv node drained w _ hev with h1 | ⟨_, h1⟩
      · exact absurd h1 (evictPods_no_insert c h node gv w _)
      · exact h1
    · intro hz
      rw [evictNode_events, if_pos hz]
      exact List.mem_append_right _ (List.mem_singleton_self _)
  have hzero := evictPods_val_zero c h node gv w
  refine ⟨hins, hzero, evictNode_val_snd c h gv node drained w, ?_, ?_, ?_⟩
  · intro hne
    have hnz : (evictPods c h node gv w).val ≠ (0, none) := fun hz => hne (hzero.mp hz).1
    refine ⟨by rw [evictPods_val, if_neg hne], ?_, fun hev => hnz (hins.mp hev)⟩
    rw [evictNode_val_snd, if_neg hnz]
  · intro hne
    have hnz : (evictPods c h node gv w).val ≠ (0, none) := fun hz => hne (hzero.mp hz).2
    refine ⟨?_, fun hev => hnz (hins.mp hev)⟩
    rw [evictNode_val_snd, if_neg hnz]
  · intro fuel clusterName ngName nameArg r hr x hx
    rcases doDrainNodeGroup_cases c fuel clusterName ngName nameArg w r hr with
      ⟨err, w1, ev, _, rfl⟩ | ⟨name, gv1, w1, ev, r1, _, hl, rfl⟩
    · simp at hx
    · rcases drainLoop_justified c drainer name gv1 fuel [] w1 r1 hl x hx with h1 | h1
      · simp at h1
      · exact List.mem_append_right _ h1

/-- C1, on node `n` with three pods of which the third is denied: the node is
not inserted; and in a run over one node with one pod the node is inserted
after a listing without pods. -/
theorem C1_drained_iff_zero_evictable_witness :
    (evictPods simCluster drainer ⟨"n", false⟩ policyGV partlyDenied).val =
        (3, some "eviction denied") ∧
      (evictNode simCluster drainer policyGV ⟨"n", false⟩ [] partlyDenied).val.2 = [] ∧
      Event.insertDrained "n" ∉
        (evictNode simCluster drainer policyGV ⟨"n", false⟩ [] partlyDenied).events ∧
      ∃ r, doDrainNodeGroup simCluster 3 "c" "ng" "" oneNodeOnePod = some r ∧
        r.drained = ["n1"] ∧ Event.getPodsForDeletion drainer "n1" [] [] ∈ r.events := by
  have h1 := C1_drained_iff_zero_evictable simCluster drainer policyGV ⟨"n", false⟩ []
    partlyDenied
  have hs : (doDrainNodeGroup simCluster 3 "c" "ng" "" oneNodeOnePod).isSome = true := by decide
  obtain ⟨r, hr⟩ := Option.isSome_iff_exists.mp hs
  have hd : (doDrainNodeGroup simCluster 3 "c" "ng" "" oneNodeOnePod).map (fun r => r.drained) =
      some ["n1"] := by decide
  rw [hr] at hd
  simp only [Option.map_some', Option.some.injEq] at hd
  refine ⟨by decide, (h1.2.2.2.2.1 (by decide)).1, (h1.2.2.2.2.1 (by decide)).2, r, hr, hd, ?_⟩
  exact (C1_drained_iff_zero_evictable simCluster drainer policyGV ⟨"n", false⟩ []
    oneNodeOnePod).2.2.2.2.2 3 "c" "ng" "" r hr "n1" (by rw [hd]; exact List.mem_singleton_self _)

/-- C3, evaluated where the capability check answers an empty group version and
no error: `errors.Wrapf(nil, ...)` is nil, so `doDrainNodeGroup` returns nil
after the capability check, whatever the fuel; the command prints nothing and
exits with status 0, and no node is listed, cordoned or evicted. -/
theorem C3_unsupported_eviction_returns_nil (fuel : Nat) :
    (doDrainNodeGroup simCluster fuel "c" "ng" "" noEvictionSupport).map
        (fun r => (r.err, drainNodeGroupCmdRun r.err, r.events)) =
      some (none, (none, 0),
        [Event.newClusterProvider, Event.register, Event.checkAuth, Event.getCredentials,
          Event.newStandardClientSet, Event.checkEvictionSupport]) := by
  rfl

/-- C4 as stated fails: with one node whose only pod is refused eviction,
`doDrainNodeGroup` returns the error of `EvictPod` in the first pass, and the
eviction is not attempted again. -/
theorem C4_counterexample :
    (doDrainNodeGroup simCluster 5 "c" "ng" "" oneNodeDenied).map
        (fun r => (r.err, r.drained, passes r.events,
          r.events.count (Event.evictPod ⟨"default", "web"⟩ policyGV (some "eviction denied")))) =
      some (some "eviction denied", [], 1, 1) := by
  decide

/-- C4, amended: an error returned by `drainer.EvictPod` is escalated. When
`EvictPod` returns an error for a pod, `evictPods` returns that error, the body
of the eviction loop returns it without inserting the node, the pass ends with
it, the loop returns it in that same pass without starting another, and so the
error of a run in which some `EvictPod` call failed is that error. -/
theorem C4_eviction_error_is_returned (c : Cluster σ) (h : Helper) (ngName gv : String)
    (drained : List String) (w : σ) (pod : Pod) (gv1 : String) (e : Err) :
    (∀ node, Event.evictPod pod gv1 (some e) ∈ (evictPods c h node gv w).events →
        (evictPods c h node gv w).val.2 = some e ∧
          (evictNode c h gv node drained w).val = (some e, drained)) ∧
    (Event.evictPod pod gv1 (some e) ∈ (pass c h ngName gv drained w).events →
        (pass c h ngName gv drained w).val.1 = PassEnd.failed e ∧
          ∀ fuel, drainLoop c h ngName gv (fuel + 1) drained w =
            some ⟨some e, (pass c h ngName gv drained w).val.2,
              (pass c h ngName gv drained w).world, (pass c h ngName gv drained w).events⟩) ∧
    (∀ fuel r, drainLoop c h ngName gv fuel drained w = some r →
        Event.evictPod pod gv1 (some e) ∈ r.events → r.err = some e) := by
  refine ⟨?_, ?_, ?_⟩
  · intro node hev
    have hv := evictPods_error_event c h node gv w pod gv1 e hev
    exact ⟨hv, by rw [evictNode_of_error c h gv node drained w e hv]⟩
  · intro hev
    have hp := pass_error_event c h ngName gv drained w pod gv1 e hev
    exact ⟨hp, fun fuel => drainLoop_of_failed c h ngName gv fuel drained w e hp⟩
  · intro fuel r hr hev
    exact drainLoop_error_event c h ngName gv fuel drained w r hr pod gv1 e hev

/-- C4 amended, on one node whose only pod is refused eviction. -/
theorem C4_eviction_error_is_returned_witness :
    (evictNode simCluster drainer policyGV ⟨"n1", false⟩ [] oneNodeDenied).val =
        (some "eviction denied", []) ∧
      (pass simCluster drainer "ng" policyGV [] oneNodeDenied).val.1 =
        PassEnd.failed "eviction denied" ∧
      (drainLoop simCluster drainer "ng" policyGV 7 [] oneNodeDenied).map (fun r => r.err) =
        some (some "eviction denied") := by
  have h := C4_eviction_error_is_returned simCluster drainer "ng" policyGV [] oneNodeDenied
    ⟨"default", "web"⟩ policyGV "eviction denied"
  refine ⟨(h.1 ⟨"n1", false⟩ (by decide)).2, (h.2.1 (by decide)).1, ?_⟩
  rw [(h.2.1 (by decide)).2 6]
  rfl

/-- C5: `drainedNodes` only grows. A name that is in `drainedNodes` is still in
it after the body of the eviction loop has run for any node, after a whole pass
(whatever the listing and the pods then are), and in the final set of every run
of the loop that returns. -/
theorem C5_drained_only_grows (c : Cluster σ) (h : Helper) (ngName gv : String)
    (drained : List String) (w : σ) (x : String) (hx : x ∈ drained) :
    (∀ node, x ∈ (evictNode c h gv node drained w).val.2) ∧
      x ∈ (pass c h ngName gv drained w).val.2 ∧
      (∀ fuel r, drainLoop c h ngName gv fuel drained w = some r → x ∈ r.drained) := by
  refine ⟨fun node => evictNode_subset c h gv node drained w x hx,
    pass_subset c h ngName gv drained w x hx, ?_⟩
  intro fuel r hr
  exact drainLoop_subset c h ngName gv fuel drained w r hr x hx

/-- C5, for a name that is in `drainedNodes` although its node is no longer
listed: it stays through a pass over another node with a pod on it. -/
theorem C5_drained_only_grows_witness :
    "gone" ∈ ["gone"] ∧
      "gone" ∈ (pass simCluster drainer "ng" policyGV ["gone"] oneNodeOnePod).val.2 := by
  exact ⟨by decide,
    (C5_drained_only_grows simCluster drainer "ng" policyGV ["gone"] oneNodeOnePod "gone"
      (by decide)).2.1⟩

/-- C7: when the group name is missing (the `--name` flag and the positional
name are both empty), `doDrainNodeGroup` returns a non-nil error for every fuel,
having made no call but the provider construction, the scheme registration and
the authentication check: no credentials are fetched, no client is built, no
capability check is made, and no node is listed, cordoned or evicted. When
registration and authentication succeed the error is `--cluster must be set` for
an empty cluster name and `--name must be set` otherwise. -/
theorem C7_missing_name_is_fatal (c : Cluster σ) (fuel : Nat) (clusterName : String) (w : σ) :
    ∃ e w1 ev, doDrainNodeGroup c fuel clusterName "" "" w = some ⟨some e, [], w1, ev⟩ ∧
      (∀ x ∈ ev, x = Event.newClusterProvider ∨ x = Event.register ∨ x = Event.checkAuth) ∧
      ((c.register w).1 = none → (c.checkAuth (c.register w).2).1 = none →
        e = if clusterName = "" then "--cluster must be set" else "--name must be set") := by
  unfold doDrainNodeGroup preflight
  rcases hr : c.register w with ⟨r1, w1⟩
  cases r1 with
  | some e1 =>
    refine ⟨e1, w1, [Event.newClusterProvider, Event.register], rfl, ?_, ?_⟩
    · intro x hx
      simp only [List.mem_cons, List.mem_singleton, List.not_mem_nil, or_false] at hx
      tauto
    · intro h1
      simp at h1
  | none =>
    rcases ha : c.checkAuth w1 with ⟨r2, w2⟩
    cases r2 with
    | some e2 =>
      refine ⟨e2, w2, [Event.newClusterProvider, Event.register, Event.checkAuth],
        by simp only [ha], ?_, ?_⟩
      · intro x hx
        simp only [List.mem_cons, List.mem_singleton, List.not_mem_nil, or_false] at hx
        tauto
      · intro _ h2
        simp [ha] at h2
    | none =>
      by_cases hc : clusterName = ""
      · refine ⟨"--cluster must be set", w2,
          [Event.newClusterProvider, Event.register, Event.checkAuth],
          by simp only [ha, hc, if_true], ?_, ?_⟩
        · intro x hx
          simp only [List.mem_cons, List.mem_singleton, List.not_mem_nil, or_false] at hx
          tauto
        · intro _ _
          rw [if_pos hc]
      · refine ⟨"--name must be set", w2,
          [Event.newClusterProvider, Event.register, Event.checkAuth], by simp [ha, hc], ?_, ?_⟩
        · intro x hx
          simp only [List.mem_cons, List.mem_singleton, List.not_mem_nil, or_false] at hx
          tauto
        · intro _ _
          rw [if_neg hc]

/-- C7, on a cluster where registration and authentication succeed. -/
theorem C7_missing_name_is_fatal_witness :
    ∃ e w1 ev, doDrainNodeGroup simCluster 3 "c" "" "" oneNodeOnePod = some ⟨some e, [], w1, ev⟩ ∧
      (∀ x ∈ ev, x = Event.newClusterProvider ∨ x = Event.register ∨ x = Event.checkAuth) ∧
      e = "--name must be set" := by
  obtain ⟨e, w1, ev, h1, h2, h3⟩ := C7_missing_name_is_fatal simCluster 3 "c" oneNodeOnePod
  exact ⟨e, w1, ev, h1, h2, (h3 rfl rfl).trans (by decide)⟩

/-- C8: every pod that `evictPods` passes to `EvictPod` is an element of the
list that `GetPodsForDeletion(node.Name).Pods()` returned for that node,
whatever that list and its order are; in a run of `doDrainNodeGroup` every pod
passed to `EvictPod` is in a list returned, without errors, to the helper that
carries the built-in exemption table. -/
theorem C8_evicted_pods_are_listed (c : Cluster σ) (h : Helper) (node : Node) (gv : String)
    (w : σ) :
    (∀ pod gv1 err, Event.evictPod pod gv1 err ∈ (evictPods c h node gv w).events →
        pod ∈ (c.getPodsForDeletion h node.name w).1.1.pods) ∧
    (∀ fuel clusterName ngName nameArg r,
        doDrainNodeGroup c fuel clusterName ngName nameArg w = some r →
        ∀ pod gv1 err, Event.evictPod pod gv1 err ∈ r.events →
          ∃ name pods, pod ∈ pods ∧ Event.getPodsForDeletion drainer name pods [] ∈ r.events) ∧
    drainer.ignoreDaemonSets =
      [⟨"kube-system", "aws-node"⟩, ⟨"kube-system", "kube-proxy"⟩, ⟨"", "node-exporter"⟩,
        ⟨"", "prom-node-exporter"⟩, ⟨"", "weave-scope"⟩, ⟨"", "weave-scope-agent"⟩,
        ⟨"", "weave-net"⟩] := by
  refine ⟨?_, ?_, rfl⟩
  · intro pod gv1 err hev
    exact (evictPods_evict_listed c h node gv w pod gv1 err hev).1
  · intro fuel clusterName ngName nameArg r hr pod gv1 err hev
    rcases doDrainNodeGroup_cases c fuel clusterName ngName nameArg w r hr with
      ⟨err1, w1, ev, hp, rfl⟩ | ⟨name, gv2, w1, ev, r1, hp, hl, rfl⟩
    · have hm : Event.evictPod pod gv1 err ∈
          (preflight c clusterName ngName nameArg w).events := by rw [hp]; exact hev
      have := preflight_mem_events c clusterName ngName nameArg w _ hm
      simp at this
    · rcases List.mem_append.mp hev with hev | hev
      · have hm : Event.evictPod pod gv1 err ∈
            (preflight c clusterName ngName nameArg w).events := by rw [hp]; exact hev
        have := preflight_mem_events c clusterName ngName nameArg w _ hm
        simp at this
      · obtain ⟨nm, pods, h1, h2⟩ :=
          drainLoop_evict_listed c drainer name gv2 fuel [] w1 r1 hl pod gv1 err hev
        exact ⟨nm, pods, h1, List.mem_append_right _ h2⟩

/-- C8, on node `n` with three pods of which the third is denied: the first
pod, which is passed to `EvictPod`, is in the list returned for `n`. -/
theorem C8_evicted_pods_are_listed_witness :
    Event.evictPod ⟨"default", "a"⟩ policyGV none ∈
        (evictPods simCluster drainer ⟨"n", false⟩ policyGV partlyDenied).events ∧
      (⟨"default", "a"⟩ : Pod) ∈
        (simCluster.getPodsForDeletion drainer "n" partlyDenied).1.1.pods := by
  exact ⟨by decide,
    (C8_evicted_pods_are_listed simCluster drainer ⟨"n", false⟩ policyGV partlyDenied).1
      ⟨"default", "a"⟩ policyGV none (by decide)⟩

/-- C10: for a node whose flag is already unschedulable, `UpdateIfRequired(true)`
reports no change, every time it is called in a pass, and no `PatchOrReplace` is
issued for that node in the pass or anywhere in a run; a patch issued in a pass
is for a node of the listing that is outside `drainedNodes` and for which
`UpdateIfRequired(true)` was called and reported a change. -/
theorem C10_cordon_idempotent (c : Cluster σ) (h : Helper) (ngName gv : String)
    (drained : List String) (w : σ) :
    (∀ node : Node, node.unschedulable = true →
        UpdateIfRequired node true = false ∧
        (∀ changed, Event.updateIfRequired node changed ∈ (pass c h ngName gv drained w).events →
          changed = false) ∧
        (∀ err patchErr,
          Event.patchOrReplace node err patchErr ∉ (pass c h ngName gv drained w).events) ∧
        (∀ fuel r, drainLoop c h ngName gv fuel drained w = some r →
          ∀ err patchErr, Event.patchOrReplace node err patchErr ∉ r.events)) ∧
    (∀ n err patchErr,
        Event.patchOrReplace n err patchErr ∈ (pass c h ngName gv drained w).events →
        (∃ nodes, (c.listNodes ngName w).1 = Except.ok nodes ∧ n ∈ nodes) ∧
          n.name ∉ drained ∧ n.unschedulable = false ∧ UpdateIfRequired n true = true ∧
          Event.updateIfRequired n true ∈ (pass c h ngName gv drained w).events) := by
  constructor
  · intro node hu
    have hf : UpdateIfRequired node true = false := by simp [UpdateIfRequired, hu]
    refine ⟨hf, ?_, ?_, ?_⟩
    · intro changed hev
      rw [pass_update_event c h ngName gv drained w node changed hev, hf]
    · intro err patchErr hev
      have := (pass_patch_event c h ngName gv drained w node err patchErr hev).2.2.1
      rw [hf] at this
      exact Bool.false_ne_true this
    · intro fuel r hr err patchErr hev
      have := (drainLoop_patch_event c h ngName gv fuel drained w r hr node err patchErr hev).1
      rw [hf] at this
      exact Bool.false_ne_true this
  · intro n err patchErr hev
    obtain ⟨h1, h2, h3, h4⟩ := pass_patch_event c h ngName gv drained w n err patchErr hev
    refine ⟨h1, h2, ?_, h3, h4⟩
    cases hn : n.unschedulable with
    | false => rfl
    | true => simp [UpdateIfRequired, hn] at h3

/-- C10, on a node that is already unschedulable: its cordon attempt reports no
change and the pass issues no patch. -/
theorem C10_cordon_idempotent_witness :
    Event.updateIfRequired ⟨"n1", true⟩ false ∈
        (pass simCluster drainer "ng" policyGV [] alreadyCordoned).events ∧
      Event.patchOrReplace ⟨"n1", true⟩ none none ∉
        (pass simCluster drainer "ng" policyGV [] alreadyCordoned).events ∧
      Event.patchOrReplace ⟨"n1", false⟩ none none ∈
        (pass simCluster drainer "ng" policyGV [] oneNodeOnePod).events ∧
      UpdateIfRequired ⟨"n1", false⟩ true = true := by
  have h1 := C10_cordon_idempotent simCluster drainer "ng" policyGV [] alreadyCordoned
  have h2 := C10_cordon_idempotent simCluster drainer "ng" policyGV [] oneNodeOnePod
  exact ⟨by decide, (h1.1 ⟨"n1", true⟩ rfl).2.2.1 none none, by decide,
    (h2.2 ⟨"n1", false⟩ none none (by decide)).2.2.2.1⟩

/-- C2 as stated fails: nodes `c` and `b` join after the first listing; in the
second pass `b` is listed, is pending and gets its cordon attempt, but
`evictPods` returns an error for `c`, which is listed before it, and the run
returns that error: `b` gets no eviction sweep. -/
theorem C2_counterexample :
    (doDrainNodeGroup simCluster 5 "c" "ng" "" lateJoiner).map
        (fun r => (r.err, passes r.events,
          decide (Event.listNodes "ng" (some [⟨"a", false⟩, ⟨"c", false⟩, ⟨"b", false⟩]) ∈
            r.events),
          cordonAttempted "b" r.events, swept "b" r.events, decide ("b" ∈ r.drained))) =
      some (some "eviction denied", 2, true, true, false, false) := by
  decide

/-- C2, amended: a pass ends the loop with success exactly when its listing
succeeds and every listed node is in `drainedNodes`, and a run that returns
success ends with such a pass. A listed node outside `drainedNodes` is in
`newPendingNodes`, gets its cordon attempt in that pass, keeps the pass from
ending the loop with success, and gets its `evictPods` call in that pass when
`evictPods` returns no error for the nodes listed before it; when it returns an
error for one of them, the pass ends with that error. -/
theorem C2_pending_node_blocks_done (c : Cluster σ) (h : Helper) (ngName gv : String)
    (drained : List String) (w : σ) :
    ((pass c h ngName gv drained w).val.1 = PassEnd.done ↔
        ∃ nodes, (c.listNodes ngName w).1 = Except.ok nodes ∧ ∀ n ∈ nodes, n.name ∈ drained) ∧
    (∀ fuel r, drainLoop c h ngName gv fuel drained w = some r → r.err = none →
        ∃ before nodes, r.events = before ++ [Event.listNodes ngName (some nodes)] ∧
          ∀ n ∈ nodes, n.name ∈ r.drained) ∧
    (∀ pre n post, (c.listNodes ngName w).1 = Except.ok (pre ++ n :: post) →
        n.name ∉ drained →
        n.name ∈ (cordonNodes c drained (pre ++ n :: post) [] (c.listNodes ngName w).2).val ∧
          Event.updateIfRequired n (UpdateIfRequired n true) ∈
            (pass c h ngName gv drained w).events ∧
          (pass c h ngName gv drained w).val.1 ≠ PassEnd.done ∧
          ((evictNodes c h gv pre drained
              (cordonNodes c drained (pre ++ n :: post) [] (c.listNodes ngName w).2).world).val.1 =
              none →
            ∃ pods errs, Event.getPodsForDeletion h n.name pods errs ∈
              (pass c h ngName gv drained w).events) ∧
          (∀ e, (evictNodes c h gv pre drained
              (cordonNodes c drained (pre ++ n :: post) [] (c.listNodes ngName w).2).world).val.1 =
              some e →
            (pass c h ngName gv drained w).val.1 = PassEnd.failed e)) := by
  refine ⟨pass_done_iff c h ngName gv drained w, ?_, ?_⟩
  · intro fuel r hr herr
    exact drainLoop_success c h ngName gv fuel drained w r hr herr
  · intro pre n post hl hd
    have hl2 : c.listNodes ngName w = (Except.ok (pre ++ n :: post), (c.listNodes ngName w).2) :=
      Prod.ext hl rfl
    obtain ⟨h1, h2, h3, h4, h5⟩ :=
      pass_pending_node c h ngName gv drained w pre n post _ hl2 hd
    exact ⟨h1, h2 n (List.mem_append_right _ (List.mem_cons_self _ _)) hd, h3, h4, h5⟩

/-- C2 amended, where node `b` has joined node `a`, which is already in
`drainedNodes`: `b` is pending, is cordoned, keeps the pass from ending the
loop, and gets its eviction sweep. -/
theorem C2_pending_node_blocks_done_witness :
    "b" ∈ (cordonNodes simCluster ["a"] [⟨"a", false⟩, ⟨"b", false⟩] []
        (simCluster.listNodes "ng" joined).2).val ∧
      Event.updateIfRequired ⟨"b", false⟩ true ∈
        (pass simCluster drainer "ng" policyGV ["a"] joined).events ∧
      (pass simCluster drainer "ng" policyGV ["a"] joined).val.1 ≠ PassEnd.done ∧
      (∃ pods errs, Event.getPodsForDeletion drainer "b" pods errs ∈
        (pass simCluster drainer "ng" policyGV ["a"] joined).events) ∧
      ∃ r, drainLoop simCluster drainer "ng" policyGV 3 ["a"] joined = some r ∧
        ∃ before nodes, r.events = before ++ [Event.listNodes "ng" (some nodes)] ∧
          ∀ n ∈ nodes, n.name ∈ r.drained := by
  have h := C2_pending_node_blocks_done simCluster drainer "ng" policyGV ["a"] joined
  obtain ⟨h1, h2, h3, h4, _⟩ := h.2.2 [⟨"a", false⟩] ⟨"b", false⟩ [] rfl (by decide)
  have hs : (drainLoop simCluster drainer "ng" policyGV 3 ["a"] joined).isSome = true := by
    decide
  obtain ⟨r, hr⟩ := Option.isSome_iff_exists.mp hs
  have he : (drainLoop simCluster drainer "ng" policyGV 3 ["a"] joined).map (fun r => r.err) =
      some none := by decide
  rw [hr] at he
  simp only [Option.map_some', Option.some.injEq] at he
  exact ⟨h1, h2, h3, h4 (by decide), r, hr, h.2.1 3 r hr he⟩

/-- C9 as stated fails: the cordon patch of node `b` returns its two errors,
`evictPods` returns an error for node `a`, which is listed before `b`, and the
run returns that error: `b` gets no eviction sweep in the pass. -/
theorem C9_counterexample :
    (doDrainNodeGroup simCluster 5 "c" "ng" "" cordonFailsAndDenied).map
        (fun r => (r.err, passes r.events,
          decide (Event.patchOrReplace ⟨"b", false⟩ (some "replace failed") (some "patch failed") ∈
            r.events),
          swept "b" r.events)) =
      some (some "eviction denied", 1, true, false) := by
  decide

/-- C9, amended: a cordon failure is not fatal. Whatever errors `PatchOrReplace`
returns, a pass ends the same way with the same `drainedNodes`, and so does a
run; an error that ends a pass comes from the listing of the nodes or from
`evictPods`. A listed node outside `drainedNodes` is in `newPendingNodes`; every
listed node outside `drainedNodes` gets its cordon attempt, and its patch when a
change is reported; the pass goes on to the eviction loop; and the node gets its
`evictPods` call in that pass when `evictPods` returns no error for the nodes
listed before it, while an error for one of them ends the pass. -/
theorem C9_cordon_failure_not_fatal (c : Cluster σ) (h : Helper) (ngName gv : String)
    (drained : List String) (w : σ) :
    (∀ f, (pass (c.withPatchErrors f) h ngName gv drained w).val =
          (pass c h ngName gv drained w).val ∧
        ∀ fuel, (drainLoop (c.withPatchErrors f) h ngName gv fuel drained w).map
            (fun r => (r.err, r.drained)) =
          (drainLoop c h ngName gv fuel drained w).map (fun r => (r.err, r.drained))) ∧
    (∀ e, (pass c h ngName gv drained w).val.1 = PassEnd.failed e →
        (c.listNodes ngName w).1 = Except.error e ∨
          (∃ pod, Event.evictPod pod gv (some e) ∈ (pass c h ngName gv drained w).events) ∨
          (∃ name pods errs, errs ≠ [] ∧ e = errsError errs ∧
            Event.getPodsForDeletion h name pods errs ∈
              (pass c h ngName gv drained w).events)) ∧
    (∀ pre n post, (c.listNodes ngName w).1 = Except.ok (pre ++ n :: post) →
        n.name ∉ drained →
        n.name ∈ (cordonNodes c drained (pre ++ n :: post) [] (c.listNodes ngName w).2).val ∧
          (∀ m ∈ pre ++ n :: post, m.name ∉ drained →
            Event.updateIfRequired m (UpdateIfRequired m true) ∈
                (pass c h ngName gv drained w).events ∧
              (UpdateIfRequired m true = true →
                ∃ err patchErr, Event.patchOrReplace m err patchErr ∈
                  (pass c h ngName gv drained w).events)) ∧
          (pass c h ngName gv drained w).val.1 ≠ PassEnd.done ∧
          ((evictNodes c h gv pre drained
              (cordonNodes c drained (pre ++ n :: post) [] (c.listNodes ngName w).2).world).val.1 =
              none →
            ∃ pods errs, Event.getPodsForDeletion h n.name pods errs ∈
              (pass c h ngName gv drained w).events) ∧
          (∀ e, (evictNodes c h gv pre drained
              (cordonNodes c drained (pre ++ n :: post) [] (c.listNodes ngName w).2).world).val.1 =
              some e →
            (pass c h ngName gv drained w).val.1 = PassEnd.failed e)) := by
  refine ⟨?_, pass_val_failed c h ngName gv drained w, ?_⟩
  · intro f
    exact ⟨(pass_withPatchErrors c f h ngName gv drained w).1,
      fun fuel => drainLoop_withPatchErrors c f h ngName gv fuel drained w⟩
  · intro pre n post hl hd
    have hl2 : c.listNodes ngName w = (Except.ok (pre ++ n :: post), (c.listNodes ngName w).2) :=
      Prod.ext hl rfl
    obtain ⟨h1, h2, h3, h4, h5⟩ :=
      pass_pending_node c h ngName gv drained w pre n post _ hl2 hd
    refine ⟨h1, ?_, h3, h4, h5⟩
    intro m hm hmd
    refine ⟨h2 m hm hmd, ?_⟩
    intro hu
    obtain ⟨err, patchErr, hp⟩ :=
      cordonNodes_patches c drained (pre ++ n :: post) [] (c.listNodes ngName w).2 m hm hmd hu
    refine ⟨err, patchErr, ?_⟩
    rw [pass_of_pending c h ngName gv drained w _ _ hl2
      (fun hc => hd (hc n (List.mem_append_right _ (List.mem_cons_self _ _))))]
    exact List.mem_cons_of_mem _ (List.mem_append_left _ hp)

/-- C9 amended, on nodes `a` and `b` where the cordon patch of `b` returns its
two errors: `b` is pending, the pass asks for another pass instead of returning
an error, and `b` gets its eviction sweep. -/
theorem C9_cordon_failure_not_fatal_witness :
    Event.patchOrReplace ⟨"b", false⟩ (some "replace failed") (some "patch failed") ∈
        (pass simCluster drainer "ng" policyGV [] cordonFails).events ∧
      (pass simCluster drainer "ng" policyGV [] cordonFails).val.1 = PassEnd.again ∧
      "b" ∈ (cordonNodes simCluster [] [⟨"a", false⟩, ⟨"b", false⟩] []
        (simCluster.listNodes "ng" cordonFails).2).val ∧
      (∃ pods errs, Event.getPodsForDeletion drainer "b" pods errs ∈
        (pass simCluster drainer "ng" policyGV [] cordonFails).events) := by
  have h := C9_cordon_failure_not_fatal simCluster drainer "ng" policyGV [] cordonFails
  obtain ⟨h1, _, _, h4, _⟩ := h.2.2 [⟨"a", false⟩] ⟨"b", false⟩ [] rfl (by decide)
  exact ⟨by decide, by decide, h1, h4 (by decide)⟩

/-- C6 as stated fails: with a fixed membership of one node that has one pod,
listings that never fail and evictions that always succeed, the loop has not
returned within 1 + 1 passes; it returns success in its third pass. -/
theorem C6_counterexample :
    Converging (idealCluster [⟨"n1", false⟩]) ["n1"] placed ∧
      (drainLoop (idealCluster [⟨"n1", false⟩]) drainer "ng" policyGV (1 + 1) []
        [("n1", ⟨"default", "web"⟩)]).isNone = true ∧
      (drainLoop (idealCluster [⟨"n1", false⟩]) drainer "ng" policyGV 3 []
        [("n1", ⟨"default", "web"⟩)]).map (fun r => (r.err, r.drained, passes r.events)) =
        some (none, ["n1"], 3) := by
  exact ⟨idealCluster_converging [⟨"n1", false⟩], by decide, by decide⟩

/-- C6, amended: given a fixed membership, listings that never fail and
evictions that always succeed (an evicted pod is absent from every later
listing and no pod appears), the loop started from an empty `drainedNodes`
returns success within three passes, whatever the number n of nodes: one pass
that evicts, one that finds every node without pods, and one confirmation pass.
The number of passes is therefore at most n + 2, every name of the membership is
in the final `drainedNodes`, and more fuel gives the same result. -/
theorem C6_converges_within_three_passes (c : Cluster σ) (names : List String)
    (podsOn : σ → String → List Pod) (hc : Converging c names podsOn) (h : Helper)
    (ngName gv : String) (w : σ) :
    ∃ r, drainLoop c h ngName gv 3 [] w = some r ∧ r.err = none ∧
      (∀ x ∈ names, x ∈ r.drained) ∧ passes r.events ≤ 3 ∧
      passes r.events ≤ names.length + 2 ∧
      ∀ fuel, 3 ≤ fuel → drainLoop c h ngName gv fuel [] w = some r := by
  have hmono : ∀ r, drainLoop c h ngName gv 3 [] w = some r →
      ∀ fuel, 3 ≤ fuel → drainLoop c h ngName gv fuel [] w = some r := by
    intro r hr fuel hf
    obtain ⟨k, rfl⟩ := Nat.exists_eq_add_of_le hf
    exact drainLoop_mono c h ngName gv 3 k [] w r hr
  obtain ⟨a1, a2⟩ := pass_converging hc h ngName gv [] w
  by_cases hall : ∀ x ∈ names, x ∈ ([] : List String)
  · have hv := a1 hall
    have hd : (pass c h ngName gv [] w).val.1 = PassEnd.done := by rw [hv]
    have hr := drainLoop_of_done c h ngName gv 2 [] w hd
    refine ⟨_, hr, rfl, ?_, ?_, ?_, hmono _ hr⟩
    · intro x hx
      exact absurd (hall x hx) (List.not_mem_nil _)
    · simp only [passes_pass]
      decide
    · simp only [passes_pass]
      omega
  · obtain ⟨b1, b2, _⟩ := a2 hall
    have hlen : 1 ≤ names.length := by
      cases names with
      | nil => exact absurd (fun x hx => absurd hx (List.not_mem_nil _)) hall
      | cons x xs => simp
    obtain ⟨c1, c2⟩ := pass_converging hc h ngName gv (pass c h ngName gv [] w).val.2
      (pass c h ngName gv [] w).world
    by_cases hall2 : ∀ x ∈ names, x ∈ (pass c h ngName gv [] w).val.2
    · have hv := c1 hall2
      have hd : (pass c h ngName gv (pass c h ngName gv [] w).val.2
          (pass c h ngName gv [] w).world).val.1 = PassEnd.done := by rw [hv]
      have hr2 := drainLoop_of_done c h ngName gv 1 _ _ hd
      have hr := drainLoop_again_some c h ngName gv 2 [] w _ b1 hr2
      refine ⟨_, hr, rfl, ?_, ?_, ?_, hmono _ hr⟩
      · intro x hx
        simp only [hv]
        exact hall2 x hx
      · simp only [passes_append, passes_pass]
        decide
      · simp only [passes_append, passes_pass]
        omega
    · obtain ⟨d1, _, d3⟩ := c2 hall2
      have hall3 := d3 b2
      obtain ⟨e1, _⟩ := pass_converging hc h ngName gv
        (pass c h ngName gv (pass c h ngName gv [] w).val.2 (pass c h ngName gv [] w).world).val.2
        (pass c h ngName gv (pass c h ngName gv [] w).val.2 (pass c h ngName gv [] w).world).world
      have hv := e1 hall3
      have hd : (pass c h ngName gv
          (pass c h ngName gv (pass c h ngName gv [] w).val.2
            (pass c h ngName gv [] w).world).val.2
          (pass c h ngName gv (pass c h ngName gv [] w).val.2
            (pass c h ngName gv [] w).world).world).val.1 = PassEnd.done := by rw [hv]
      have hr3 := drainLoop_of_done c h ngName gv 0 _ _ hd
      have hr2 := drainLoop_again_some c h ngName gv 1 _ _ _ d1 hr3
      have hr := drainLoop_again_some c h ngName gv 2 [] w _ b1 hr2
      refine ⟨_, hr, rfl, ?_, ?_, ?_, hmono _ hr⟩
      · intro x hx
        simp only [hv]
        exact hall3 x hx
      · simp only [passes_append, passes_pass]
        decide
      · simp only [passes_append, passes_pass]
        omega

/-- C6 amended, on a fixed membership of two nodes, one with two pods and one
with a pod. -/
theorem C6_converges_within_three_passes_witness :
    ∃ r, drainLoop (idealCluster [⟨"n1", false⟩, ⟨"n2", false⟩]) drainer "ng" policyGV 3 []
        [("n1", ⟨"default", "web"⟩), ("n2", ⟨"default", "db"⟩), ("n1", ⟨"default", "api"⟩)] =
          some r ∧
      r.err = none ∧ (∀ x ∈ ["n1", "n2"], x ∈ r.drained) ∧ passes r.events ≤ 3 := by
  obtain ⟨r, h1, h2, h3, h4, _⟩ :=
    C6_converges_within_three_passes (idealCluster [⟨"n1", false⟩, ⟨"n2", false⟩])
      ["n1", "n2"] placed (idealCluster_converging [⟨"n1", false⟩, ⟨"n2", false⟩]) drainer "ng"
      policyGV [("n1", ⟨"default", "web"⟩), ("n2", ⟨"default", "db"⟩), ("n1", ⟨"default", "api"⟩)]
  exact ⟨r, h1, h2, h3, h4⟩

end Claims

end DrainNodeGroup
